import Mathlib

/-!
Verification development for the justETF export pipeline
(`scrape_justetf.py`, `export_etf_csv.py`).

Python floats are modelled as exact numbers: values that stay rational
(parsed percentages, monthly returns, formatted literals) live in `ℚ`;
values produced by `math.pow` live in `ℝ` with real exponentiation.
Python dates are modelled by a calendar-date structure with the proleptic
Gregorian ordinal used by `datetime.date` subtraction.  JSON documents are
modelled by the inductive `JVal`.
-/

namespace JustETF

/-! ## Character and string helpers -/

theorem length_dropWhile_le (p : α → Bool) (t : List α) :
    (t.dropWhile p).length ≤ t.length := by
  induction t with
  | nil => simp
  | cons c t ih =>
    by_cases h : p c = true
    · simp only [List.dropWhile, h]
      exact le_trans ih (by simp)
    · simp [List.dropWhile, h]

/-- Whitespace recognised by the source's `\s` regex class (ASCII part). -/
def isPySpace (c : Char) : Bool :=
  c = ' ' ∨ c = '\t' ∨ c = '\n' ∨ c = '\r' ∨ c = '\x0b' ∨ c = '\x0c'

def isAsciiDigit (c : Char) : Bool := '0' ≤ c ∧ c ≤ '9'

def isAsciiAlpha (c : Char) : Bool := ('a' ≤ c ∧ c ≤ 'z') ∨ ('A' ≤ c ∧ c ≤ 'Z')

/-- The character class `[A-Za-zÀ-ſ]` of the launch-date regex. -/
def isLaunchMonthChar (c : Char) : Bool :=
  isAsciiAlpha c ∨ ('À' ≤ c ∧ c ≤ 'ſ')

def lowerChar (c : Char) : Char := c.toLower

/-- Collapse every maximal run of whitespace to one `' '` (the
`re.sub(r"\s+", " ", ...)` step); the flag records whether the previous
character was whitespace. -/
def collapseSpacesAux : Bool → List Char → List Char
  | _, [] => []
  | prevSpace, c :: t =>
    if isPySpace c then
      if prevSpace then collapseSpacesAux true t
      else ' ' :: collapseSpacesAux true t
    else c :: collapseSpacesAux false t

def collapseSpaces (l : List Char) : List Char := collapseSpacesAux false l

/-- `str.strip()` on both ends (only `' '` can remain at the ends after collapsing). -/
def stripEnds (l : List Char) : List Char :=
  ((l.dropWhile isPySpace).reverse.dropWhile isPySpace).reverse

/-- `clean_spaces` of `export_etf_csv.py` (also `clean_text` of `scrape_justetf.py`):
replace NBSP by a space, collapse whitespace runs, strip the ends. -/
def clean_spaces (l : List Char) : List Char :=
  stripEnds (collapseSpaces (l.map fun c => if c = '\xa0' then ' ' else c))

/-- `str.replace(pat, "")`: delete every (non-overlapping, leftmost-first)
occurrence of `pat`.  The fuel argument (at least the list length) keeps the
recursion structural. -/
def removeSubAux (pat : List Char) : ℕ → List Char → List Char
  | _, [] => []
  | 0, l => l
  | fuel + 1, c :: t =>
    if pat ≠ [] ∧ pat.isPrefixOf (c :: t) then
      removeSubAux pat fuel (List.drop (pat.length - 1) t)
    else
      c :: removeSubAux pat fuel t

def removeSub (pat l : List Char) : List Char := removeSubAux pat l.length l

/-- Numeric value of a big-endian ASCII digit string. -/
def charsToNat (l : List Char) : ℕ :=
  l.foldl (fun a c => 10 * a + (c.toNat - 48)) 0

def digitChar (d : ℕ) : Char := Char.ofNat (48 + d)

/-- Little-endian decimal digit characters, by fuel-bounded structural
recursion (any fuel at least the digit count gives the digits of `n`). -/
def natDigitsAux : ℕ → ℕ → List Char
  | 0, _ => []
  | _ + 1, 0 => []
  | fuel + 1, n => digitChar (n % 10) :: natDigitsAux fuel (n / 10)

/-- Big-endian decimal digits of a natural number (`"0"` for zero, as printed). -/
def natDigitsBE (n : ℕ) : List Char :=
  if n = 0 then ['0'] else (natDigitsAux n n).reverse

/-- Drop the trailing characters satisfying `p` (Python's `rstrip`). -/
def dropTrailing (p : Char → Bool) (l : List Char) : List Char :=
  (l.reverse.dropWhile p).reverse

/-! ## A structurally recursive stable sort, modelling Python's `sorted`. -/

/-- Insert `x` after all existing entries `y` with `le y x` (keeps stability). -/
def insortBy (le : α → α → Bool) (x : α) : List α → List α
  | [] => [x]
  | y :: t => if le y x then y :: insortBy le x t else x :: y :: t

/-- Stable insertion sort: elements are inserted in encounter order, each after
the equal-key elements already placed, exactly the stability contract of
Python's `sorted`. -/
def pySorted (le : α → α → Bool) (l : List α) : List α :=
  l.foldl (fun acc x => insortBy le x acc) []

theorem insortBy_perm (le : α → α → Bool) (x : α) (l : List α) :
    (insortBy le x l).Perm (x :: l) := by
  induction l with
  | nil => simp [insortBy]
  | cons y t ih =>
    by_cases h : le y x = true
    · simpa [insortBy, h] using ((ih.cons y).trans (List.Perm.swap x y t))
    · simp [insortBy, h]

theorem pySorted_perm (le : α → α → Bool) (l : List α) :
    (pySorted le l).Perm l := by
  suffices h : ∀ (l acc : List α),
      (l.foldl (fun acc x => insortBy le x acc) acc).Perm (acc ++ l) by
    simpa using h l []
  intro l
  induction l with
  | nil => simp
  | cons x t ih =>
    intro acc
    refine (ih (insortBy le x acc)).trans ?_
    have h1 : (insortBy le x acc ++ t).Perm ((x :: acc) ++ t) :=
      (insortBy_perm le x acc).append_right t
    refine h1.trans ?_
    simpa using (List.perm_append_comm_assoc [x] acc t)

theorem insortBy_sorted (le : α → α → Bool)
    (htrans : ∀ a b c, le a b → le b c → le a c)
    (htotal : ∀ a b, le a b ∨ le b a)
    (x : α) (l : List α) (hl : l.Pairwise (fun a b => le a b)) :
    (insortBy le x l).Pairwise (fun a b => le a b) := by
  induction l with
  | nil => simp [insortBy]
  | cons y t ih =>
    rcases List.pairwise_cons.mp hl with ⟨hy, ht⟩
    by_cases h : le y x = true
    · have hins := ih ht
      have hmem : ∀ z ∈ insortBy le x t, le y z := by
        intro z hz
        have hz' : z ∈ x :: t := (insortBy_perm le x t).mem_iff.mp hz
        rcases List.mem_cons.mp hz' with rfl | hz''
        · exact h
        · exact hy z hz''
      simpa [insortBy, h] using List.pairwise_cons.mpr ⟨hmem, hins⟩
    · have hxy : le x y := by
        rcases htotal x y with h1 | h1
        · exact h1
        · exact absurd h1 (by simpa using h)
      simp only [insortBy, h, Bool.false_eq_true, if_false]
      refine List.pairwise_cons.mpr ⟨?_, hl⟩
      intro z hz
      rcases List.mem_cons.mp hz with rfl | hz'
      · exact hxy
      · exact htrans x y z hxy (hy z hz')

theorem pySorted_sorted (le : α → α → Bool)
    (htrans : ∀ a b c, le a b → le b c → le a c)
    (htotal : ∀ a b, le a b ∨ le b a)
    (l : List α) :
    (pySorted le l).Pairwise (fun a b => le a b) := by
  suffices h : ∀ (l acc : List α), acc.Pairwise (fun a b => le a b) →
      (l.foldl (fun acc x => insortBy le x acc) acc).Pairwise (fun a b => le a b) by
    exact h l [] (by simp)
  intro l
  induction l with
  | nil => intro acc hacc; simpa using hacc
  | cons x t ih =>
    intro acc hacc
    exact ih _ (insortBy_sorted le htrans htotal x acc hacc)

/-! ## JSON values (the documents handled by the pipeline) -/

/-- A parsed JSON value.  Python distinguishes `int` from `float`; `json.loads`
produces `int` for unadorned integer literals, so both are kept.  A Python
`bool` is a subtype of `int`, which matters for the `isinstance` checks below. -/
inductive JVal where
  | null : JVal
  | jbool : Bool → JVal
  | jint : ℤ → JVal
  | jnum : ℚ → JVal
  | jstr : String → JVal
  | jarr : List JVal → JVal
  | jobj : List (String × JVal) → JVal

/-- `dict.get(k, d)`; later duplicate JSON keys win, as in `json.loads`. -/
def jgetD (v : JVal) (k : String) (d : JVal) : JVal :=
  match v with
  | .jobj fs => ((fs.reverse.find? (fun p => p.1 == k)).map (fun p => p.2)).getD d
  | _ => d

/-- `dict.get(k)` with default `None`. -/
def jget (v : JVal) (k : String) : JVal := jgetD v k .null

def JVal.isObj : JVal → Bool
  | .jobj _ => true
  | _ => false

/-- Python `repr`.  Floats are printed as exact rationals and container
reprs elide quoting subtleties; downstream only emptiness and digit
strings matter. -/
def pyRepr : JVal → String
  | .null => "None"
  | .jbool true => "True"
  | .jbool false => "False"
  | .jint n => toString n
  | .jnum q => toString q
  | .jstr s => "\x27" ++ s ++ "\x27"
  | .jarr xs => "[" ++ String.intercalate ", " (xs.attach.map (fun x => pyRepr x.1)) ++ "]"
  | .jobj fs =>
      "\x7b" ++
        String.intercalate ", "
          (fs.attach.map (fun kv => "\x27" ++ kv.1.1 ++ "\x27: " ++ pyRepr kv.1.2)) ++
      "\x7d"
decreasing_by
  · have := List.sizeOf_lt_of_mem x.2
    simp at this ⊢
    omega
  · obtain ⟨⟨k, v2⟩, hm⟩ := kv
    have := List.sizeOf_lt_of_mem hm
    simp at this ⊢
    omega

/-- Python `str()`: identity on strings, `repr` otherwise. -/
def pyStr : JVal → String
  | .jstr s => s
  | v => pyRepr v

/-- Python truthiness of a JSON value. -/
def pyTruthy : JVal → Bool
  | .null => false
  | .jbool b => b
  | .jint n => n ≠ 0
  | .jnum q => q ≠ 0
  | .jstr s => s ≠ ""
  | .jarr xs => ¬ xs.isEmpty
  | .jobj fs => ¬ fs.isEmpty

/-- `x or ""` on a field that is rendered as text. -/
def pyOrEmptyStr (v : JVal) : String :=
  if pyTruthy v then pyStr v else ""

/-- `isinstance(x, (int, float))` with the numeric value (`True` counts as 1). -/
def asNum : JVal → Option ℚ
  | .jint n => some (n : ℚ)
  | .jnum q => some q
  | .jbool b => some (if b then 1 else 0)
  | _ => none

/-- `isinstance(x, int)` with the value (`bool` is an `int` in Python). -/
def asInt : JVal → Option ℤ
  | .jint n => some n
  | .jbool b => some (if b then 1 else 0)
  | _ => none

/-- `x if isinstance(x, str) else None`. -/
def asOptStr : JVal → Option String
  | .jstr s => some s
  | _ => none

def digitVal (c : Char) : ℕ := c.toNat - 48

def trimChars (l : List Char) : List Char :=
  ((l.dropWhile isPySpace).reverse.dropWhile isPySpace).reverse

/-- Python `int(s)`: optional sign around a non-empty digit string, with
surrounding whitespace allowed (digit-group underscores are not modelled). -/
def parseIntChars (l : List Char) : Option ℤ :=
  let core := fun (neg : Bool) (ds : List Char) =>
    if ds ≠ [] ∧ ds.all isAsciiDigit then
      some ((if neg then (-1 : ℤ) else 1) * (charsToNat ds : ℤ))
    else none
  match trimChars l with
  | '-' :: t => core true t
  | '+' :: t => core false t
  | t => core false t

/-- `int(str(v))`, the year coercion used on heatmap rows: succeeds for
`int` fields and for integer-looking strings, fails for everything else. -/
def yearFromJVal (v : JVal) : Option ℤ :=
  match v with
  | .jint n => some n
  | .jstr s => parseIntChars s.data
  | _ => none

/-! ## Dates (`datetime.date`) -/

structure PyDate where
  year : ℕ
  month : ℕ
  day : ℕ
deriving DecidableEq

def isLeapYear (y : ℕ) : Bool := (y % 4 = 0 ∧ y % 100 ≠ 0) ∨ y % 400 = 0

def daysInMonth (y m : ℕ) : ℕ :=
  if m = 2 then (if isLeapYear y then 29 else 28)
  else if m = 4 ∨ m = 6 ∨ m = 9 ∨ m = 11 then 30
  else 31

/-- The `datetime.date` constructor: `None` models the `ValueError` branch. -/
def mkPyDate (y m d : ℤ) : Option PyDate :=
  if 1 ≤ y ∧ y ≤ 9999 ∧ 1 ≤ m ∧ m ≤ 12 ∧ 1 ≤ d ∧ d ≤ (daysInMonth y.toNat m.toNat : ℤ) then
    some ⟨y.toNat, m.toNat, d.toNat⟩
  else none

def cumDaysBeforeMonth (m : ℕ) : ℕ :=
  [0, 0, 31, 59, 90, 120, 151, 181, 212, 243, 273, 304, 334].getD m 0

/-- `date.toordinal()`: proleptic Gregorian day number, `0001-01-01 ↦ 1`.
Subtracting two ordinals is exactly `(d2 - d1).days`. -/
def toOrdinal (dt : PyDate) : ℕ :=
  let py := dt.year - 1
  365 * py + py / 4 - py / 100 + py / 400 + cumDaysBeforeMonth dt.month
    + (if 2 < dt.month ∧ isLeapYear dt.year then 1 else 0) + dt.day

/-- `years_between` of `export_etf_csv.py`: whole elapsed years, using the
mean Gregorian year; `int()` truncation equals `⌊·⌋` on the non-negative
day counts that survive the guard. -/
def years_between (start : Option PyDate) (endDate : PyDate) : Option ℤ :=
  match start with
  | none => none
  | some s =>
    let days : ℤ := (toOrdinal endDate : ℤ) - (toOrdinal s : ℤ)
    if days < 0 then none
    else some ⌊(days : ℚ) / (365.2425 : ℚ)⌋

/-! ## Number scanners (the `re.search` patterns of the parsers) -/

def spanDigits (l : List Char) : List Char × List Char :=
  (l.takeWhile isAsciiDigit, l.dropWhile isAsciiDigit)

structure NumMatch where
  neg : Bool
  intPart : List Char
  fracPart : List Char
deriving DecidableEq

/-- Attempt of the pattern `-?\d+(?:SEP\d+)?` anchored at the head. -/
def matchNumberCore (seps : List Char) (neg : Bool) (r : List Char) : Option NumMatch :=
  match spanDigits r with
  | ([], _) => none
  | (ds, rest) =>
    match rest with
    | c :: rest2 =>
      if c ∈ seps then
        match spanDigits rest2 with
        | ([], _) => some ⟨neg, ds, []⟩
        | (fs, _) => some ⟨neg, ds, fs⟩
      else some ⟨neg, ds, []⟩
    | [] => some ⟨neg, ds, []⟩

def matchNumberAt (seps : List Char) (l : List Char) : Option NumMatch :=
  match l with
  | '-' :: t => matchNumberCore seps true t
  | t => matchNumberCore seps false t

/-- `re.search` for the number pattern: leftmost match wins. -/
def searchNumber (seps : List Char) : List Char → Option NumMatch
  | [] => none
  | c :: t =>
    match matchNumberAt seps (c :: t) with
    | some m => some m
    | none => searchNumber seps t

/-- `float()` of the matched text (after separator normalisation). -/
def numMatchVal (m : NumMatch) : ℚ :=
  (if m.neg then (-1 : ℚ) else 1) *
    ((charsToNat m.intPart : ℚ) + (charsToNat m.fracPart : ℚ) / 10 ^ m.fracPart.length)

/-- `parse_percent` of `export_etf_csv.py`. -/
def parse_percent (value : Option String) : Option ℚ :=
  match value with
  | none => none
  | some s =>
    if s = "" then none
    else
      let t1 := clean_spaces s.data
      let t2 := removeSub "%".data t1
      let t3 := removeSub "p.a.".data t2
      let t4 := removeSub "+".data t3
      (searchNumber ['.', ','] t4).map numMatchVal

/-- `parse_percent_text` of `scrape_justetf.py`: strips NBSP/space, `%`, `+`,
normalises the decimal comma, then searches `-?\d+(?:\.\d+)?`. -/
def parse_percent_text (value : Option String) : Option ℚ :=
  match value with
  | none => none
  | some s =>
    if s = "" then none
    else
      let t1 := s.data.filter (fun c => c ≠ '\xa0' ∧ c ≠ ' ')
      let t2 := removeSub "%".data t1
      let t3 := removeSub "+".data t2
      let t4 := t3.map (fun c => if c = ',' then '.' else c)
      (searchNumber ['.'] t4).map numMatchVal

/-- The regex class `[\d\s.,]` of `parse_aum_meur`. -/
def isAumGroupChar (c : Char) : Bool :=
  isAsciiDigit c ∨ isPySpace c ∨ c = '.' ∨ c = ','

/-- `re.search(r"(\d[\d\s.,]*)\s*([A-Za-z]+)?", text)`: the number group and
the optional unit group of the leftmost match. -/
def searchAumGroup : List Char → Option (List Char × List Char)
  | [] => none
  | c :: t =>
    if isAsciiDigit c then
      some ((c :: t).takeWhile isAumGroupChar,
            (((c :: t).dropWhile isAumGroupChar).takeWhile isAsciiAlpha))
    else searchAumGroup t

/-- Python `float(s)` on sign/digits/dot strings (the shapes produced by the
callers; exponent and special forms are not reachable there). -/
def pyFloatOfChars (l : List Char) : Option ℚ :=
  let core := fun (neg : Bool) (r : List Char) =>
    match spanDigits r with
    | (ip, rest) =>
      match rest with
      | [] =>
        if ip = [] then none
        else some ((if neg then (-1 : ℚ) else 1) * (charsToNat ip : ℚ))
      | '.' :: rest2 =>
        match spanDigits rest2 with
        | (fp, rest3) =>
          if rest3 = [] ∧ (ip ≠ [] ∨ fp ≠ []) then
            some ((if neg then (-1 : ℚ) else 1) *
              ((charsToNat ip : ℚ) + (charsToNat fp : ℚ) / 10 ^ fp.length))
          else none
      | _ => none
  match l with
  | '-' :: t => core true t
  | '+' :: t => core false t
  | t => core false t

/-- `parse_aum_meur` of `export_etf_csv.py`. -/
def parse_aum_meur (value : Option String) : Option ℚ :=
  match value with
  | none => none
  | some s =>
    if s = "" then none
    else
      let text := clean_spaces s.data
      match searchAumGroup text with
      | none => none
      | some (grp, unitChars) =>
        let numberRaw :=
          (grp.filter (fun c => c ≠ ' ')).map (fun c => if c = ',' then '.' else c)
        match pyFloatOfChars numberRaw with
        | none => none
        | some number =>
          let unit := ((unitChars.map lowerChar).asString)
          if unit = "mrd" ∨ unit = "bn" ∨ unit = "b" ∨ unit = "md" then some (number * 1000)
          else if unit = "k" ∨ unit = "mille" then some (number / 1000)
          else some number

/-! ## French date parsing -/

/-- One-or-more whitespace (`\s+`), returning the rest. -/
def wsPlus (l : List Char) : Option (List Char) :=
  match l with
  | c :: t => if isPySpace c then some (t.dropWhile isPySpace) else none
  | [] => none

/-- The tail `\s+(MONTH+)\s+(\d{4})` of the day/month/year patterns. -/
def matchFrTail (day : ℕ) (monthPred : Char → Bool) (l : List Char) :
    Option (ℕ × List Char × ℕ) :=
  match wsPlus l with
  | none => none
  | some r1 =>
    let ms := r1.takeWhile monthPred
    if ms = [] then none
    else
      match wsPlus (r1.dropWhile monthPred) with
      | none => none
      | some r2 =>
        let ys := r2.takeWhile isAsciiDigit
        if 4 ≤ ys.length then some (day, ms, charsToNat (ys.take 4)) else none

/-- `(\d{1,2})\s+(MONTH+)\s+(\d{4})` anchored at the head: the greedy
two-digit day is tried first, then the one-digit fallback, as the regex
engine backtracks. -/
def matchFrAt (monthPred : Char → Bool) (l : List Char) : Option (ℕ × List Char × ℕ) :=
  match l with
  | [] => none
  | c1 :: t1 =>
    if ¬ isAsciiDigit c1 then none
    else
      (match t1 with
       | c2 :: t2 =>
         if isAsciiDigit c2 then matchFrTail (10 * digitVal c1 + digitVal c2) monthPred t2
         else none
       | [] => none) <|> matchFrTail (digitVal c1) monthPred t1

def searchFrDate (monthPred : Char → Bool) : List Char → Option (ℕ × List Char × ℕ)
  | [] => none
  | c :: t =>
    match matchFrAt monthPred (c :: t) with
    | some r => some r
    | none => searchFrDate monthPred t

/-- The `MONTH_INDEX` table of `scrape_justetf.py`. -/
def monthIndexTable : List (String × ℕ) :=
  [("jan", 1), ("janv", 1), ("janvier", 1),
   ("feb", 2), ("fev", 2), ("fevr", 2), ("fevrier", 2), ("fvrier", 2),
   ("mar", 3), ("mars", 3),
   ("avr", 4), ("avril", 4),
   ("mai", 5),
   ("jun", 6), ("juin", 6),
   ("jul", 7), ("juil", 7), ("juillet", 7),
   ("aou", 8), ("aout", 8), ("aug", 8),
   ("sep", 9), ("sept", 9), ("septembre", 9),
   ("oct", 10), ("octobre", 10),
   ("nov", 11), ("novembre", 11),
   ("dec", 12), ("decembre", 12), ("dcembre", 12)]

def monthIndexLookup (s : String) : Option ℕ :=
  (monthIndexTable.find? (fun p => p.1 == s)).map (fun p => p.2)

/-- The accent-replacement chain of `parse_french_date`. -/
def deaccentFrChar (c : Char) : Char :=
  if c = 'é' ∨ c = 'è' ∨ c = 'ê' then 'e'
  else if c = 'û' ∨ c = 'ù' then 'u'
  else if c = 'ô' then 'o'
  else if c = 'î' ∨ c = 'ï' then 'i'
  else if c = 'à' then 'a'
  else if c = 'ç' then 'c'
  else c

/-- `parse_french_date` of `scrape_justetf.py`. -/
def parse_french_date (value : Option String) : Option PyDate :=
  match value with
  | none => none
  | some s =>
    if s = "" then none
    else
      let text := (clean_spaces s.data).map lowerChar
      match searchFrDate isAsciiAlpha text with
      | none => none
      | some (day, ms, year) =>
        let monthToken := (ms.map deaccentFrChar).asString
        match monthIndexLookup monthToken with
        | none => none
        | some month => mkPyDate (year : ℤ) (month : ℤ) (day : ℤ)

/-- The `FRENCH_MONTHS` table of `export_etf_csv.py`. -/
def frenchMonthsTable : List (String × ℕ) :=
  [("janvier", 1), ("fevrier", 2), ("fevr", 2), ("mars", 3), ("avril", 4),
   ("mai", 5), ("juin", 6), ("juillet", 7), ("aout", 8), ("septembre", 9),
   ("octobre", 10), ("novembre", 11), ("decembre", 12)]

def frenchMonthsLookup (s : String) : Option ℕ :=
  (frenchMonthsTable.find? (fun p => p.1 == s)).map (fun p => p.2)

/-- `deaccent` of `export_etf_csv.py` (NFKD then ASCII filter), modelled
character-wise on the Latin accent range; other non-ASCII characters are
dropped, as the ASCII encode/ignore step does. -/
def deaccentChar (c : Char) : List Char :=
  if c.toNat < 128 then [c]
  else if c = 'à' ∨ c = 'â' ∨ c = 'ä' then ['a']
  else if c = 'é' ∨ c = 'è' ∨ c = 'ê' ∨ c = 'ë' then ['e']
  else if c = 'î' ∨ c = 'ï' then ['i']
  else if c = 'ô' ∨ c = 'ö' then ['o']
  else if c = 'û' ∨ c = 'ù' ∨ c = 'ü' then ['u']
  else if c = 'ç' then ['c']
  else []

def deaccent (l : List Char) : List Char := l.flatMap deaccentChar

/-- `lanc[ée]` case-insensitively at the head, then the rest of the launch
pattern (`\s+le\s+` day month year). -/
def matchLaunchAt (l : List Char) : Option (ℕ × List Char × ℕ) :=
  match l with
  | a :: b :: c :: d :: e :: t =>
    if (lowerChar a = 'l' ∧ lowerChar b = 'a' ∧ lowerChar c = 'n' ∧ lowerChar d = 'c')
        ∧ (lowerChar e = 'e' ∨ lowerChar e = 'é') then
      match wsPlus t with
      | none => none
      | some r =>
        match r with
        | x :: y :: t2 =>
          if lowerChar x = 'l' ∧ lowerChar y = 'e' then
            match wsPlus t2 with
            | none => none
            | some r2 => matchFrAt isLaunchMonthChar r2
          else none
        | _ => none
    else none
  | _ => none

def searchLaunch : List Char → Option (ℕ × List Char × ℕ)
  | [] => none
  | c :: t =>
    match matchLaunchAt (c :: t) with
    | some r => some r
    | none => searchLaunch t

/-- `extract_launch_date_from_description` of `export_etf_csv.py`.  (The
source's `replace("fevrier", "fevrier")` is the identity and is omitted.) -/
def extract_launch_date_from_description (description : Option String) : Option PyDate :=
  match description with
  | none => none
  | some s =>
    if s = "" then none
    else
      let text := clean_spaces s.data
      match searchLaunch text with
      | none => none
      | some (day, monthChars, year) =>
        let token := deaccent (monthChars.map lowerChar)
        let token := removeSub ".".data token
        match frenchMonthsLookup token.asString with
        | none => none
        | some month => mkPyDate (year : ℤ) (month : ℤ) (day : ℤ)

/-- Case-insensitive literal prefix match, returning the rest. -/
def litMatchCI : List Char → List Char → Option (List Char)
  | [], r => some r
  | p :: ps, c :: t => if lowerChar c = lowerChar p then litMatchCI ps t else none
  | _ :: _, [] => none

/-- `reproduit l['’]index\s+([^\.]+)\.` anchored at the head (IGNORECASE). -/
def matchIndexAt (l : List Char) : Option (List Char) :=
  match litMatchCI "reproduit l".data l with
  | none => none
  | some r =>
    match r with
    | q :: t =>
      if q = Char.ofNat 39 ∨ q = '’' then
        match litMatchCI "index".data t with
        | none => none
        | some r2 =>
          match wsPlus r2 with
          | none => none
          | some r3 =>
            let cap := r3.takeWhile (fun c => c ≠ '.')
            if cap ≠ [] ∧ (r3.dropWhile (fun c => c ≠ '.')).head? = some '.' then some cap
            else none
      else none
    | [] => none

def searchIndexName : List Char → Option (List Char)
  | [] => none
  | c :: t =>
    match matchIndexAt (c :: t) with
    | some r => some r
    | none => searchIndexName t

/-- `extract_index_name` of `export_etf_csv.py`. -/
def extract_index_name (description : Option String) : Option String :=
  match description with
  | none => none
  | some s =>
    if s = "" then none
    else
      match searchIndexName (clean_spaces s.data) with
      | none => none
      | some cap => some (clean_spaces cap).asString

/-! ## Heatmap analytics -/

/-- The `isinstance(heatmap, dict)` / `isinstance(values, list)` guards:
the `values` list of a heatmap document, when present. -/
def heatmapValues (hm : JVal) : Option (List JVal) :=
  match hm with
  | .jobj _ =>
    match jget hm "values" with
    | .jarr vs => some vs
    | _ => none
  | _ => none

/-- The monthly returns extracted by `compute_cagr_from_heatmap` of
`export_etf_csv.py`: the numeric `return_pct` of each dict row. -/
def cagrReturns (hm : JVal) : List ℚ :=
  match heatmapValues hm with
  | none => []
  | some values =>
    values.filterMap (fun row =>
      match row with
      | .jobj _ => asNum (jget row "return_pct")
      | _ => none)

/-- `compute_cagr_from_heatmap` of `export_etf_csv.py`. -/
noncomputable def compute_cagr_from_heatmap (hm : JVal) : Option ℝ :=
  match heatmapValues hm with
  | none => none
  | some values =>
    if values.isEmpty then none
    else
      let returns := values.filterMap (fun row =>
        match row with
        | .jobj _ => asNum (jget row "return_pct")
        | _ => none)
      if returns.isEmpty then none
      else
        let compounded : ℚ := returns.foldl (fun acc r => acc * (1 + r / 100)) 1
        if compounded ≤ 0 then none
        else some (((compounded : ℝ) ^ ((12 : ℝ) / (returns.length : ℝ)) - 1) * 100)

/-- `str(row.get("year", "")).strip()` then `int(...)`, as in the scrape-side
`compute_cagr_from_heatmap`. -/
def scrapeYearOf (row : JVal) : Option ℤ :=
  parseIntChars (pyStr (jgetD row "year" (.jstr ""))).data

/-- The `(year, month_index, return_pct)` points collected by the scrape-side
`compute_cagr_from_heatmap`. -/
def scrapePoints (hm : JVal) : List (ℤ × ℤ × ℚ) :=
  match heatmapValues hm with
  | none => []
  | some values =>
    values.filterMap (fun row =>
      match row with
      | .jobj _ =>
        match asInt (jget row "month_index"), asNum (jget row "return_pct"),
            scrapeYearOf row with
        | some m, some r, some y => some (y, m, r)
        | _, _, _ => none
      | _ => none)

/-- Lexicographic key `(year, month_index)` used by `points.sort`. -/
def pointLe (a b : ℤ × ℤ × ℚ) : Bool :=
  decide (a.1 < b.1 ∨ (a.1 = b.1 ∧ a.2.1 ≤ b.2.1))

/-- `compute_cagr_from_heatmap` of `scrape_justetf.py`. -/
noncomputable def scrape_compute_cagr_from_heatmap (hm : JVal) : Option ℝ :=
  if ¬ pyTruthy hm then none
  else
    match heatmapValues hm with
    | none => none
    | some values =>
      if values.isEmpty then none
      else
        let points := scrapePoints hm
        if points.isEmpty then none
        else
          let sorted := pySorted pointLe points
          let compounded : ℚ := sorted.foldl (fun acc p => acc * (1 + p.2.2 / 100)) 1
          if sorted.length ≤ 0 ∨ compounded ≤ 0 then none
          else some (((compounded : ℝ) ^ ((12 : ℝ) / (sorted.length : ℝ)) - 1) * 100)

/-- The valid `(year, month_index, return_pct)` rows used by
`compute_yearly_returns_from_heatmap`. -/
def yearlyPoints (hm : JVal) : List (ℤ × ℤ × ℚ) :=
  match heatmapValues hm with
  | none => []
  | some values =>
    values.filterMap (fun row =>
      match row with
      | .jobj _ =>
        match yearFromJVal (jget row "year"), asInt (jget row "month_index"),
            asNum (jget row "return_pct") with
        | some y, some m, some r => some (y, m, r)
        | _, _, _ => none
      | _ => none)

/-- `sorted(by_year)`: the distinct years, ascending. -/
def sortedYears (hm : JVal) : List ℤ :=
  pySorted (fun a b => decide (a ≤ b)) ((yearlyPoints hm).map (fun p => p.1)).dedup

/-- The compounded annual percentage of one year: the year's `(month, return)`
pairs in encounter order, stably sorted by month, compounded. -/
def yearCompounded (hm : JVal) (y : ℤ) : ℚ :=
  (pySorted (fun a b => decide (a.1 ≤ b.1))
      (((yearlyPoints hm).filter (fun p => decide (p.1 = y))).map (fun p => (p.2.1, p.2.2)))).foldl
    (fun acc pr => acc * (1 + pr.2 / 100)) 1

/-- `compute_yearly_returns_from_heatmap` of `export_etf_csv.py`. -/
def compute_yearly_returns_from_heatmap (hm : JVal) : List ℚ :=
  match heatmapValues hm with
  | none => []
  | some _ => (sortedYears hm).map (fun y => (yearCompounded hm y - 1) * 100)

/-- The `(year, month_index)` points of `infer_launch_date_from_heatmap`. -/
def inferLaunchPoints (hm : JVal) : List (ℤ × ℤ) :=
  match heatmapValues hm with
  | none => []
  | some values =>
    values.filterMap (fun row =>
      match row with
      | .jobj _ =>
        match yearFromJVal (jget row "year"), asInt (jget row "month_index") with
        | some y, some m => if m < 1 ∨ 12 < m then none else some (y, m)
        | _, _ => none
      | _ => none)

/-- `infer_launch_date_from_heatmap` of `export_etf_csv.py`. -/
def infer_launch_date_from_heatmap (hm : JVal) : Option PyDate :=
  match heatmapValues hm with
  | none => none
  | some values =>
    if values.isEmpty then none
    else
      let points := inferLaunchPoints hm
      if points.isEmpty then none
      else
        match (pySorted (fun a b => decide (a.1 < b.1 ∨ (a.1 = b.1 ∧ a.2 ≤ b.2))) points).head? with
        | none => none
        | some (y, m) => mkPyDate y m 1

/-! ## Category classification and spreadsheet helpers -/

/-- Python's substring containment `needle in hay`. -/
def containsSub (needle : List Char) : List Char → Bool
  | [] => needle.isEmpty
  | c :: t => needle.isPrefixOf (c :: t) || containsSub needle t

/-- `classify_category` of `export_etf_csv.py` (`.lower()` maps characters). -/
def classify_category (name axis : Option String) : String :=
  let text := ((name.getD "") ++ " " ++ (axis.getD "")).data.map lowerChar
  if containsSub "core".data text then "Core"
  else if containsSub "hedg".data text then "Hedge"
  else "Satellite"

/-- The `while n > 0: n, rem = divmod(n - 1, 26)` loop of `excel_col_name`. -/
def excelColAux : ℕ → List Char
  | 0 => []
  | n + 1 => excelColAux (n / 26) ++ [Char.ofNat (65 + n % 26)]
decreasing_by
  have : n / 26 ≤ n := Nat.div_le_self n 26
  omega

/-- `excel_col_name` of `export_etf_csv.py`. -/
def excel_col_name (i : ℕ) : String := (excelColAux i).asString

/-! ## Numeric formatting (`fmt_number`) -/

/-- Round half to even, the rounding of Python's `round` and of `%.nf`
formatting (modelled on exact values rather than binary floats). -/
noncomputable def roundHalfEvenR (x : ℝ) : ℤ :=
  if Int.fract x < 1 / 2 then ⌊x⌋
  else if 1 / 2 < Int.fract x then ⌊x⌋ + 1
  else if Even ⌊x⌋ then ⌊x⌋ else ⌊x⌋ + 1

/-- `f"{r:.{n}f}"` of an integer count of `10⁻ⁿ` units, followed by
`.rstrip("0").rstrip(".")` and the comma substitution — the string body of
`fmt_number`. -/
def decimalChars (m : ℤ) (n : ℕ) : List Char :=
  let a := m.natAbs / 10 ^ n
  let f := m.natAbs % 10 ^ n
  let fpDigits := natDigitsBE f
  let fpFull := List.replicate (n - fpDigits.length) '0' ++ fpDigits
  let s := (if m < 0 then ['-'] else []) ++ natDigitsBE a ++
    (if n = 0 then [] else '.' :: fpFull)
  (dropTrailing (fun c => c = '.') (dropTrailing (fun c => c = '0') s)).map
    (fun c => if c = '.' then ',' else c)

/-- Fractional digits of `decimalChars` after the trailing-zero strip. -/
def fracChars (m : ℤ) (n : ℕ) : List Char :=
  dropTrailing (fun c => c = '0')
    (List.replicate (n - (natDigitsBE (m.natAbs % 10 ^ n)).length) '0' ++
      natDigitsBE (m.natAbs % 10 ^ n))

/-- `fmt_number` of `export_etf_csv.py` on a (finite) numeric value. -/
noncomputable def fmt_number (x : ℝ) (ndigits : ℕ) : String :=
  (decimalChars (roundHalfEvenR (x * 10 ^ ndigits)) ndigits).asString

/-- Python `round(x, n)` on a finite value. -/
noncomputable def pyRound (x : ℝ) (n : ℕ) : ℝ :=
  ((roundHalfEvenR (x * 10 ^ n) : ℝ)) / 10 ^ n

/-! ## Fallback CAGR and the scrape-side CAGR assignment -/

/-- The `_meta_returns` auxiliary dict captured while parsing the profile. -/
structure MetaTexts where
  max_return_text : Option String
  launch_date_text : Option String

/-- `compute_cagr_from_max_return` of `scrape_justetf.py` (with
`dt.date.today()` passed explicitly). -/
noncomputable def compute_cagr_from_max_return (meta : Option MetaTexts) (today : PyDate) :
    Option ℝ :=
  match meta with
  | none => none
  | some mt =>
    match parse_percent_text mt.max_return_text, parse_french_date mt.launch_date_text with
    | some maxReturnPct, some launchDate =>
      let days : ℤ := (toOrdinal today : ℤ) - (toOrdinal launchDate : ℤ)
      if days ≤ 0 then none
      else
        let years : ℚ := (days : ℚ) / (365.2425 : ℚ)
        let totalGrowth : ℚ := 1 + maxReturnPct / 100
        if totalGrowth ≤ 0 then none
        else some (((totalGrowth : ℝ) ^ ((1 : ℝ) / (years : ℝ)) - 1) * 100)
    | _, _ => none

/-- The CAGR assignment of the scrape-side `main` loop: the heatmap CAGR is
written (rounded to six decimals, tagged with its provenance) when present,
the fallback estimate only otherwise, and nothing when both are absent. -/
noncomputable def scrape_assign_cagr (hm : JVal) (meta : Option MetaTexts) (today : PyDate) :
    Option (ℝ × String) :=
  match scrape_compute_cagr_from_heatmap hm with
  | some c => some (pyRound c 6, "heatmap_mensuelle")
  | none =>
    match compute_cagr_from_max_return meta today with
    | some c => some (pyRound c 6, "max_return_plus_launch_date")
    | none => none

/-! ## The normalizer (`build_overview_rows`) -/

/-- One normalized instrument record (the row dict of `build_overview_rows`). -/
structure OverviewRow where
  isin : String
  nom : String
  ticker : String
  indice : String
  axe : String
  categorie : String
  devise : String
  ter : Option ℚ
  replication : String
  distribution : String
  domicile : String
  promoteur : String
  aum : Option ℚ
  dateLancement : String
  ageAnnees : Option ℤ
  volatilite : Option ℚ
  cagr : Option ℝ
  nbAnneesNegatives : Option ℕ
  pireAnnee : Option ℚ

def pad2 (n : ℕ) : String := if n < 10 then "0" ++ toString n else toString n

def pad4 (n : ℕ) : String :=
  if n < 10 then "000" ++ toString n
  else if n < 100 then "00" ++ toString n
  else if n < 1000 then "0" ++ toString n
  else toString n

/-- `launch_date.strftime("%d/%m/%Y")`. -/
def strftimeDMY (d : PyDate) : String :=
  pad2 d.day ++ "/" ++ pad2 d.month ++ "/" ++ pad4 d.year

def pyUpper (s : String) : String := (s.data.map Char.toUpper).asString

def pyStrip (s : String) : String := (trimChars s.data).asString

/-- The per-document body of `build_overview_rows`: `None` is the
`continue` taken for a non-dict document or an empty ISIN.  Detail fields
are read through `asOptStr`, matching the string-or-`None` payloads the
scraper writes. -/
noncomputable def normalizeDoc (today : PyDate) (tickerMap : List (String × String))
    (data : JVal) : Option OverviewRow :=
  match data with
  | .jobj _ =>
    let isin := pyUpper (pyStrip (pyStr (jgetD data "isin" (.jstr ""))))
    if isin = "" then none
    else
      let details := match jget data "donnees" with
        | .jobj fs => JVal.jobj fs
        | _ => JVal.jobj []
      let description := jget data "description"
      let name := jget data "nom"
      let heatmap := jget data "heatmap_mensuelle"
      let axis := jget details "axe_investissement"
      let ter := parse_percent (asOptStr (jget details "frais_totaux_sur_encours_ter"))
      let volatility := parse_percent (asOptStr (jget details "volatilite_sur_1_an"))
      let aumMeur := parse_aum_meur (asOptStr (jget details "taille_du_fonds"))
      let cagr : Option ℝ :=
        match asNum (jget data "cagr_depuis_creation_pct") with
        | some q => some ((q : ℚ) : ℝ)
        | none => compute_cagr_from_heatmap heatmap
      let launch :=
        match extract_launch_date_from_description (asOptStr description) with
        | some d => some d
        | none => infer_launch_date_from_heatmap heatmap
      let ageYears := years_between launch today
      let yearly := compute_yearly_returns_from_heatmap heatmap
      let negYears := yearly.countP (fun r => decide (r < 0))
      some
        { isin := isin
          nom := pyOrEmptyStr name
          ticker := ((tickerMap.find? (fun p => p.1 == isin)).map (fun p => p.2)).getD ""
          indice := (extract_index_name (asOptStr description)).getD ""
          axe := pyOrEmptyStr axis
          categorie := classify_category (asOptStr name) (asOptStr axis)
          devise := pyOrEmptyStr (jget details "monnaie_du_fonds")
          ter := ter
          replication := pyOrEmptyStr (jget details "methode_de_replication")
          distribution := pyOrEmptyStr (jget details "distribution")
          domicile := pyOrEmptyStr (jget details "domicile_du_fonds")
          promoteur := pyOrEmptyStr (jget details "promoteur")
          aum := aumMeur
          dateLancement := match launch with
            | some d => strftimeDMY d
            | none => ""
          ageAnnees := ageYears
          volatilite := volatility
          cagr := cagr
          nbAnneesNegatives := if yearly.isEmpty then none else some negYears
          pireAnnee := yearly.min? }
  | _ => none

/-- `build_overview_rows` over already-parsed documents. -/
noncomputable def build_overview_rows (today : PyDate) (tickerMap : List (String × String))
    (docs : List JVal) : List OverviewRow :=
  docs.filterMap (normalizeDoc today tickerMap)

/-! ## The projection-sheet builder (`write_projection_csv`) -/

abbrev CellOp := ℕ × ℕ × String

abbrev SheetMatrix := List (List String)

def blankRow (cols : ℕ) : List String := List.replicate cols ""

/-- `ensure_row`: append blank rows of width `cols` until row `idx` exists. -/
def ensureRows (cols : ℕ) (m : SheetMatrix) (idx : ℕ) : SheetMatrix :=
  m ++ List.replicate (idx + 1 - m.length) (blankRow cols)

/-- `set_cell`: `matrix[r][c] = value`; `none` models the `IndexError`
raised when `c` is out of range for the row. -/
def setCell? (cols : ℕ) (m : SheetMatrix) (r c : ℕ) (v : String) : Option SheetMatrix :=
  let m2 := ensureRows cols m r
  match m2[r]? with
  | none => none
  | some row => if c < row.length then some (m2.set r (row.set c v)) else none

/-- Total variant of `set_cell`, used to name the successful result. -/
def setCell (cols : ℕ) (m : SheetMatrix) (r c : ℕ) (v : String) : SheetMatrix :=
  let m2 := ensureRows cols m r
  m2.set r (((m2[r]?).getD (blankRow cols)).set c v)

def applyOps? (cols : ℕ) (m : SheetMatrix) (ops : List CellOp) : Option SheetMatrix :=
  ops.foldlM (fun m o => setCell? cols m o.1 o.2.1 o.2.2) m

def applyOps (cols : ℕ) (m : SheetMatrix) (ops : List CellOp) : SheetMatrix :=
  ops.foldl (fun m o => setCell cols m o.1 o.2.1 o.2.2) m

def getCell (m : SheetMatrix) (r c : ℕ) : String :=
  ((m[r]?.getD [])[c]?).getD ""

/-- The parameter block (rows 0–4) and the rate-block labels (rows 6–10). -/
noncomputable def paramOps (years : ℕ) (capital inflation dca : ℝ) : List CellOp :=
  [(0, 0, "Parametre"), (0, 1, "Valeur"),
   (1, 0, "Capital initial"), (1, 1, fmt_number capital 2),
   (2, 0, "Inflation annuelle"), (2, 1, fmt_number inflation 6),
   (3, 0, "DCA mensuel"), (3, 1, fmt_number dca 2),
   (4, 0, "Horizon (annees)"), (4, 1, toString years),
   (6, 0, "ETF"), (7, 0, "ISIN"), (8, 0, "CAGR brut annuel"), (9, 0, "TER annuel"),
   (10, 0, "Rendement net reel annuel")]

/-- The per-instrument rate block: `for idx, row in enumerate(etfs, start=2)`.
A non-numeric CAGR or TER is replaced by `0.0` before formatting. -/
noncomputable def rateOps (etfs : List OverviewRow) : List CellOp :=
  (List.enumFrom 2 etfs).flatMap (fun p =>
    let idx := p.1
    let row := p.2
    let col := excel_col_name idx
    let cagrPct : ℝ := row.cagr.getD 0
    let terPct : ℚ := row.ter.getD 0
    [(6, idx - 1, row.nom),
     (7, idx - 1, row.isin),
     (8, idx - 1, "=" ++ fmt_number (cagrPct / 100) 10),
     (9, idx - 1, "=" ++ fmt_number ((terPct : ℝ) / 100) 10),
     (10, idx - 1, "=(1+" ++ col ++ "9)*(1-" ++ col ++ "10)/(1+$B$3)-1")])

noncomputable def projHeaderOps (etfs : List OverviewRow) : List CellOp :=
  (12, 0, "Annee") :: (List.enumFrom 2 etfs).map (fun p => (12, p.1 - 1, p.2.isin))

/-- The fee-adjusted growth block: `start_data_row = 13`; year 0 references
the initial capital, later years reference the previous row and the net
rate at spreadsheet row 11. -/
def netGrowthOps (nEtfs years : ℕ) : List CellOp :=
  (List.range (years + 1)).flatMap (fun y =>
    (13 + y, 0, toString y) ::
      (List.range' 2 nEtfs).map (fun idx =>
        let col := excel_col_name idx
        if y = 0 then (13 + y, idx - 1, "=$B$2")
        else (13 + y, idx - 1,
          "=" ++ col ++ toString (13 + y) ++ "*(1+" ++ col ++ "$11)+$B$4*12")))

noncomputable def noCostHeaderOps (etfs : List OverviewRow) (years : ℕ) : List CellOp :=
  (16 + years, 0, "Annee (sans frais)") ::
    (List.enumFrom 2 etfs).map (fun p => (16 + years, p.1 - 1, p.2.isin))

/-- The fee-free growth block: rows `17 + years + y`, rate at spreadsheet
row 9 (the raw CAGR). -/
def noCostGrowthOps (nEtfs years : ℕ) : List CellOp :=
  (List.range (years + 1)).flatMap (fun y =>
    (17 + years + y, 0, toString y) ::
      (List.range' 2 nEtfs).map (fun idx =>
        let col := excel_col_name idx
        if y = 0 then (17 + years + y, idx - 1, "=$B$2")
        else (17 + years + y, idx - 1,
          "=" ++ col ++ toString (17 + years + y) ++ "*(1+" ++ col ++ "$9)+$B$4*12")))

/-- The summary block: header at row `20 + 2*years`, one row per instrument,
columns 0–5. -/
noncomputable def summaryOps (etfs : List OverviewRow) (years : ℕ) : List CellOp :=
  let sh := 20 + 2 * years
  [(sh, 0, "ISIN"), (sh, 1, "Nom ETF"), (sh, 2, "Capital final net reel"),
   (sh, 3, "Capital final sans frais"), (sh, 4, "Manque a gagner"),
   (sh, 5, "Manque a gagner %")]
  ++ (List.enumFrom 1 etfs).flatMap (fun p =>
    let i := p.1
    let r := sh + i
    let col := excel_col_name (i + 1)
    [(r, 0, p.2.isin), (r, 1, p.2.nom),
     (r, 2, "=" ++ col ++ toString (13 + years + 1)),
     (r, 3, "=" ++ col ++ toString (17 + 2 * years + 1)),
     (r, 4, "=D" ++ toString (r + 1) ++ "-C" ++ toString (r + 1)),
     (r, 5, "=E" ++ toString (r + 1) ++ "/D" ++ toString (r + 1))])

/-- All cell writes of `write_projection_csv`, in statement order. -/
noncomputable def projectionOps (etfs : List OverviewRow) (years : ℕ)
    (capital inflation dca : ℝ) : List CellOp :=
  paramOps years capital inflation dca ++ rateOps etfs ++ projHeaderOps etfs
    ++ netGrowthOps etfs.length years ++ noCostHeaderOps etfs years
    ++ noCostGrowthOps etfs.length years ++ summaryOps etfs years

/-- `write_projection_csv`: the matrix that is serialised, or `none` when a
cell write raises `IndexError`.  `col_count = 1 + len(etfs)`. -/
noncomputable def write_projection_csv (etfs : List OverviewRow) (years : ℕ)
    (capital inflation dca : ℝ) : Option SheetMatrix :=
  if etfs.isEmpty then some [["Aucun ETF exploitable"]]
  else applyOps? (1 + etfs.length) [] (projectionOps etfs years capital inflation dca)

/-! ## Lemmas about the cell-writing machinery -/

/-- Every row of the matrix has the column count — the invariant `blank_row`
and `set_cell` maintain. -/
def WFMat (cols : ℕ) (m : SheetMatrix) : Prop := ∀ row ∈ m, row.length = cols

theorem WFMat_nil (cols : ℕ) : WFMat cols [] := by
  intro row h
  simp at h

theorem length_ensureRows (cols : ℕ) (m : SheetMatrix) (idx : ℕ) :
    (ensureRows cols m idx).length = max m.length (idx + 1) := by
  simp [ensureRows]
  omega

theorem WFMat_ensureRows (cols : ℕ) (m : SheetMatrix) (idx : ℕ) (h : WFMat cols m) :
    WFMat cols (ensureRows cols m idx) := by
  intro row hrow
  rcases List.mem_append.mp hrow with h1 | h1
  · exact h row h1
  · rcases List.eq_of_mem_replicate h1 with rfl
    simp [blankRow]

theorem getElem?_ensureRows_lt (cols : ℕ) (m : SheetMatrix) (idx r : ℕ)
    (h : r < m.length) : (ensureRows cols m idx)[r]? = m[r]? := by
  simp [ensureRows, List.getElem?_append, h]

theorem getElem?_ensureRows_blank (cols : ℕ) (m : SheetMatrix) (idx r : ℕ)
    (h1 : m.length ≤ r) (h2 : r ≤ idx) :
    (ensureRows cols m idx)[r]? = some (blankRow cols) := by
  have hlt : ¬ r < m.length := by omega
  simp only [ensureRows, List.getElem?_append, hlt, if_false]
  rw [List.getElem?_replicate]
  simp
  omega

theorem lt_length_ensureRows (cols : ℕ) (m : SheetMatrix) (r : ℕ) :
    r < (ensureRows cols m r).length := by
  rw [length_ensureRows]
  omega

theorem ensureRows_getElem?_isSome (cols : ℕ) (m : SheetMatrix) (r : ℕ) :
    ∃ row, (ensureRows cols m r)[r]? = some row := by
  have := lt_length_ensureRows cols m r
  exact ⟨(ensureRows cols m r)[r], List.getElem?_eq_getElem this⟩

theorem ensureRows_row_length (cols : ℕ) (m : SheetMatrix) (idx r : ℕ)
    (hWF : WFMat cols m) (row : List String)
    (h : (ensureRows cols m idx)[r]? = some row) : row.length = cols := by
  exact WFMat_ensureRows cols m idx hWF row (List.getElem?_mem h)

theorem setCell?_eq_some (cols : ℕ) (m : SheetMatrix) (r c : ℕ) (v : String)
    (hWF : WFMat cols m) (hc : c < cols) :
    setCell? cols m r c v = some (setCell cols m r c v) := by
  obtain ⟨row, hrow⟩ := ensureRows_getElem?_isSome cols m r
  have hlen : row.length = cols := ensureRows_row_length cols m r r hWF row hrow
  simp [setCell?, setCell, hrow, hlen, hc]

theorem setCell?_some_eq (cols : ℕ) (m m2 : SheetMatrix) (r c : ℕ) (v : String)
    (h : setCell? cols m r c v = some m2) : m2 = setCell cols m r c v := by
  simp only [setCell?] at h
  obtain ⟨row, hrow⟩ := ensureRows_getElem?_isSome cols m r
  rw [hrow] at h
  by_cases hc : c < row.length
  · simp only [hc, if_true, Option.some.injEq] at h
    simp [setCell, hrow, ← h]
  · simp [hc] at h

theorem WFMat_setCell (cols : ℕ) (m : SheetMatrix) (r c : ℕ) (v : String)
    (hWF : WFMat cols m) : WFMat cols (setCell cols m r c v) := by
  intro row hrow
  have hWF2 := WFMat_ensureRows cols m r hWF
  rcases List.mem_or_eq_of_mem_set hrow with h1 | h1
  · exact hWF2 row h1
  · obtain ⟨row0, hrow0⟩ := ensureRows_getElem?_isSome cols m r
    have : row0.length = cols := ensureRows_row_length cols m r r hWF row0 hrow0
    rw [h1, hrow0]
    simpa using this

theorem getCell_setCell_self (cols : ℕ) (m : SheetMatrix) (r c : ℕ) (v : String)
    (hWF : WFMat cols m) (hc : c < cols) :
    getCell (setCell cols m r c v) r c = v := by
  obtain ⟨row, hrow⟩ := ensureRows_getElem?_isSome cols m r
  have hlen : row.length = cols := ensureRows_row_length cols m r r hWF row hrow
  have hr : r < (ensureRows cols m r).length := lt_length_ensureRows cols m r
  simp only [setCell, getCell, hrow]
  rw [List.getElem?_set_self hr]
  simp only [Option.getD_some]
  rw [List.getElem?_set_self (by omega)]
  simp

theorem getCell_blank (cols c : ℕ) : ((blankRow cols)[c]?).getD "" = "" := by
  rw [blankRow, List.getElem?_replicate]
  by_cases h : c < cols <;> simp [h]

theorem getCell_ensureRows (cols : ℕ) (m : SheetMatrix) (idx r c : ℕ) :
    getCell (ensureRows cols m idx) r c = getCell m r c := by
  by_cases h : r < m.length
  · simp [getCell, getElem?_ensureRows_lt cols m idx r h]
  · have h1 : m[r]? = none := List.getElem?_eq_none (by omega)
    by_cases h2 : r ≤ idx
    · rw [getCell, getElem?_ensureRows_blank cols m idx r (by omega) h2]
      simp [getCell, h1, getCell_blank]
    · have : (ensureRows cols m idx)[r]? = none := by
        apply List.getElem?_eq_none
        rw [length_ensureRows]
        omega
      simp [getCell, this, h1]

theorem getCell_setCell_of_ne (cols : ℕ) (m : SheetMatrix) (r c r' c' : ℕ) (v : String)
    (hne : r' ≠ r ∨ c' ≠ c) :
    getCell (setCell cols m r c v) r' c' = getCell m r' c' := by
  rcases hne with hne | hne
  · have : (setCell cols m r c v)[r']? = (ensureRows cols m r)[r']? := by
      simp only [setCell]
      exact List.getElem?_set_ne (fun h => hne h.symm)
    rw [getCell, this, ← getCell]
    exact getCell_ensureRows cols m r r' c'
  · by_cases hrr : r' = r
    · subst hrr
      obtain ⟨row, hrow⟩ := ensureRows_getElem?_isSome cols m r'
      have hr : r' < (ensureRows cols m r').length := lt_length_ensureRows cols m r'
      simp only [setCell, getCell, hrow]
      rw [List.getElem?_set_self hr]
      simp only [Option.getD_some]
      rw [List.getElem?_set_ne (fun h => hne h.symm)]
      have := getCell_ensureRows cols m r' r' c'
      simp only [getCell, hrow] at this
      exact this
    · have : (setCell cols m r c v)[r']? = (ensureRows cols m r)[r']? := by
        simp only [setCell]
        exact List.getElem?_set_ne (fun h => hrr h.symm)
      rw [getCell, this, ← getCell]
      exact getCell_ensureRows cols m r r' c'

theorem applyOps_cons (cols : ℕ) (m : SheetMatrix) (o : CellOp) (ops : List CellOp) :
    applyOps cols m (o :: ops) = applyOps cols (setCell cols m o.1 o.2.1 o.2.2) ops := rfl

theorem applyOps?_cons (cols : ℕ) (m : SheetMatrix) (o : CellOp) (ops : List CellOp) :
    applyOps? cols m (o :: ops) =
      (setCell? cols m o.1 o.2.1 o.2.2).bind (fun m2 => applyOps? cols m2 ops) := by
  simp [applyOps?, List.foldlM_cons]

theorem applyOps?_eq_some (cols : ℕ) (ops : List CellOp) :
    ∀ (m : SheetMatrix), WFMat cols m → (∀ o ∈ ops, o.2.1 < cols) →
      applyOps? cols m ops = some (applyOps cols m ops) := by
  induction ops with
  | nil => intro m _ _; simp [applyOps?, applyOps]
  | cons o rest ih =>
    intro m hWF hops
    rw [applyOps?_cons, setCell?_eq_some cols m o.1 o.2.1 o.2.2 hWF
      (hops o (by simp)), Option.some_bind, applyOps_cons]
    exact ih _ (WFMat_setCell cols m o.1 o.2.1 o.2.2 hWF)
      (fun o' h => hops o' (by simp [h]))

theorem applyOps?_some_imp (cols : ℕ) (ops : List CellOp) :
    ∀ (m M : SheetMatrix), applyOps? cols m ops = some M → M = applyOps cols m ops := by
  induction ops with
  | nil =>
    intro m M h
    simp [applyOps?] at h
    simp [applyOps, ← h]
  | cons o rest ih =>
    intro m M h
    rw [applyOps?_cons] at h
    rcases Option.bind_eq_some.mp h with ⟨m2, hm2, hrest⟩
    rw [applyOps_cons, ← setCell?_some_eq cols m m2 o.1 o.2.1 o.2.2 hm2]
    exact ih m2 M hrest

theorem WFMat_applyOps (cols : ℕ) (ops : List CellOp) :
    ∀ (m : SheetMatrix), WFMat cols m → WFMat cols (applyOps cols m ops) := by
  induction ops with
  | nil => intro m h; simpa [applyOps] using h
  | cons o rest ih =>
    intro m h
    rw [applyOps_cons]
    exact ih _ (WFMat_setCell cols m o.1 o.2.1 o.2.2 h)

theorem getCell_applyOps_no_write (cols : ℕ) (ops : List CellOp) :
    ∀ (m : SheetMatrix) (r c : ℕ), (∀ o ∈ ops, ¬ (o.1 = r ∧ o.2.1 = c)) →
      getCell (applyOps cols m ops) r c = getCell m r c := by
  induction ops with
  | nil => intro m r c _; rfl
  | cons o rest ih =>
    intro m r c h
    rw [applyOps_cons, ih _ r c (fun o' ho' => h o' (by simp [ho']))]
    apply getCell_setCell_of_ne
    have := h o (by simp)
    by_cases h1 : o.1 = r
    · right
      intro hc
      exact this ⟨h1, hc.symm⟩
    · left
      exact fun hr => h1 hr.symm

theorem getCell_applyOps_write (cols : ℕ) (ops : List CellOp) :
    ∀ (m : SheetMatrix) (r c : ℕ) (v : String), WFMat cols m → c < cols →
      (∃ o ∈ ops, o.1 = r ∧ o.2.1 = c) →
      (∀ o ∈ ops, o.1 = r → o.2.1 = c → o.2.2 = v) →
      getCell (applyOps cols m ops) r c = v := by
  induction ops with
  | nil =>
    intro m r c v _ _ hex _
    simp at hex
  | cons o rest ih =>
    intro m r c v hWF hc hex hval
    rw [applyOps_cons]
    by_cases hrest : ∃ o' ∈ rest, o'.1 = r ∧ o'.2.1 = c
    · exact ih _ r c v (WFMat_setCell cols m o.1 o.2.1 o.2.2 hWF) hc hrest
        (fun o' h h1 h2 => hval o' (by simp [h]) h1 h2)
    · have ho : o.1 = r ∧ o.2.1 = c := by
        rcases hex with ⟨o', ho', hcoord⟩
        rcases List.mem_cons.mp ho' with rfl | hmem
        · exact hcoord
        · exact absurd ⟨o', hmem, hcoord⟩ hrest
      rw [getCell_applyOps_no_write cols rest _ r c
        (fun o' ho' hcoord => hrest ⟨o', ho', hcoord⟩)]
      rw [ho.1, ho.2]
      rw [getCell_setCell_self cols m r c o.2.2 hWF hc]
      exact hval o (by simp) ho.1 ho.2

/-! ## Coordinate characterizations of the projection blocks -/

theorem mem_enumFrom_iff {α : Type _} (n : ℕ) (l : List α) (p : ℕ × α) :
    p ∈ List.enumFrom n l ↔ ∃ k, ∃ h : k < l.length, p = (n + k, l[k]) := by
  constructor
  · intro h
    induction l generalizing n with
    | nil => simp [List.enumFrom] at h
    | cons x t ih =>
      rw [List.enumFrom_cons] at h
      rcases List.mem_cons.mp h with rfl | h2
      · exact ⟨0, by simp, by simp⟩
      · obtain ⟨k, hk, hp⟩ := ih (n + 1) h2
        refine ⟨k + 1, by simpa using hk, ?_⟩
        rw [hp]
        simp
        omega
  · rintro ⟨k, hk, rfl⟩
    induction l generalizing n k with
    | nil => simp at hk
    | cons x t ih =>
      rw [List.enumFrom_cons]
      match k with
      | 0 => simp
      | k + 1 =>
        refine List.mem_cons.mpr (Or.inr ?_)
        have := ih (n + 1) k (by simpa using hk)
        simpa [Nat.add_right_comm n 1 k] using this

theorem mem_paramOps (years : ℕ) (cap inf dca : ℝ) (o : CellOp)
    (h : o ∈ paramOps years cap inf dca) :
    o.1 ≤ 10 ∧ o.2.1 ≤ 1 ∧ (1 ≤ o.2.1 → o.1 ≤ 4) := by
  simp only [paramOps, List.mem_cons, List.not_mem_nil, or_false] at h
  rcases h with rfl | rfl | rfl | rfl | rfl | rfl | rfl | rfl | rfl | rfl | rfl | rfl |
    rfl | rfl | rfl <;> simp

theorem mem_rateOps (etfs : List OverviewRow) (o : CellOp) (h : o ∈ rateOps etfs) :
    6 ≤ o.1 ∧ o.1 ≤ 10 ∧ 1 ≤ o.2.1 ∧ o.2.1 ≤ etfs.length := by
  simp only [rateOps, List.mem_flatMap] at h
  obtain ⟨p, hp, ho⟩ := h
  obtain ⟨k, hk, rfl⟩ := (mem_enumFrom_iff 2 etfs p).mp hp
  simp only [List.mem_cons, List.not_mem_nil, or_false] at ho
  rcases ho with rfl | rfl | rfl | rfl | rfl <;> simp <;> omega

theorem rateOps_val (etfs : List OverviewRow) (o : CellOp) (h : o ∈ rateOps etfs)
    (k : ℕ) (hk : k < etfs.length) (hc : o.2.1 = k + 1) :
    (o.1 = 6 → o.2.2 = etfs[k].nom) ∧
    (o.1 = 7 → o.2.2 = etfs[k].isin) ∧
    (o.1 = 8 → o.2.2 = "=" ++ fmt_number (etfs[k].cagr.getD 0 / 100) 10) ∧
    (o.1 = 9 → o.2.2 = "=" ++ fmt_number ((etfs[k].ter.getD 0 : ℝ) / 100) 10) ∧
    (o.1 = 10 → o.2.2 = "=(1+" ++ excel_col_name (k + 2) ++ "9)*(1-" ++
      excel_col_name (k + 2) ++ "10)/(1+$B$3)-1") := by
  simp only [rateOps, List.mem_flatMap] at h
  obtain ⟨p, hp, ho⟩ := h
  obtain ⟨j, hj, rfl⟩ := (mem_enumFrom_iff 2 etfs p).mp hp
  simp only [List.mem_cons, List.not_mem_nil, or_false] at ho
  have hkj : j = k := by
    rcases ho with rfl | rfl | rfl | rfl | rfl <;> simp at hc <;> omega
  subst hkj
  have h2 : 2 + j = j + 2 := by omega
  rcases ho with rfl | rfl | rfl | rfl | rfl <;> simp [h2]

theorem mem_projHeaderOps (etfs : List OverviewRow) (o : CellOp)
    (h : o ∈ projHeaderOps etfs) : o.1 = 12 ∧ o.2.1 ≤ etfs.length := by
  simp only [projHeaderOps, List.mem_cons] at h
  rcases h with rfl | h
  · simp
  · simp only [List.mem_map] at h
    obtain ⟨p, hp, rfl⟩ := h
    obtain ⟨k, hk, rfl⟩ := (mem_enumFrom_iff 2 etfs p).mp hp
    simp
    omega

/-- The fee-adjusted growth-block cell written for year `y` and instrument
index `k` (zero-based; spreadsheet column `excel_col_name (k+2)`). -/
def netGrowthCell (y k : ℕ) : CellOp :=
  (13 + y, k + 1,
    if y = 0 then "=$B$2"
    else "=" ++ excel_col_name (k + 2) ++ toString (13 + y) ++ "*(1+" ++
      excel_col_name (k + 2) ++ "$11)+$B$4*12")

/-- The fee-free growth-block cell for year `y` and instrument index `k`. -/
def noCostGrowthCell (years y k : ℕ) : CellOp :=
  (17 + years + y, k + 1,
    if y = 0 then "=$B$2"
    else "=" ++ excel_col_name (k + 2) ++ toString (17 + years + y) ++ "*(1+" ++
      excel_col_name (k + 2) ++ "$9)+$B$4*12")

theorem mem_netGrowthOps (nEtfs years : ℕ) (o : CellOp) (h : o ∈ netGrowthOps nEtfs years) :
    (∃ y, y ≤ years ∧ o = (13 + y, 0, toString y)) ∨
    (∃ y k, y ≤ years ∧ k < nEtfs ∧ o = netGrowthCell y k) := by
  simp only [netGrowthOps, List.mem_flatMap, List.mem_range] at h
  obtain ⟨y, hy, ho⟩ := h
  rcases List.mem_cons.mp ho with rfl | ho
  · exact Or.inl ⟨y, by omega, rfl⟩
  · right
    simp only [List.mem_map, List.mem_range'] at ho
    obtain ⟨idx, ⟨i, hi, rfl⟩, rfl⟩ := ho
    refine ⟨y, i, by omega, hi, ?_⟩
    have h2 : 2 + 1 * i = i + 2 := by omega
    have h3 : i + 2 - 1 = i + 1 := by omega
    simp only [netGrowthCell, h2, h3]
    by_cases h0 : y = 0 <;> simp [h0]

theorem netGrowthCell_mem (nEtfs years y k : ℕ) (hy : y ≤ years) (hk : k < nEtfs) :
    netGrowthCell y k ∈ netGrowthOps nEtfs years := by
  simp only [netGrowthOps, List.mem_flatMap, List.mem_range]
  refine ⟨y, by omega, ?_⟩
  refine List.mem_cons.mpr (Or.inr ?_)
  simp only [List.mem_map, List.mem_range']
  refine ⟨k + 2, ⟨k, hk, by omega⟩, ?_⟩
  have h3 : k + 2 - 1 = k + 1 := by omega
  simp only [netGrowthCell, h3]
  by_cases h0 : y = 0 <;> simp [h0]

theorem mem_noCostHeaderOps (etfs : List OverviewRow) (years : ℕ) (o : CellOp)
    (h : o ∈ noCostHeaderOps etfs years) : o.1 = 16 + years ∧ o.2.1 ≤ etfs.length := by
  simp only [noCostHeaderOps, List.mem_cons] at h
  rcases h with rfl | h
  · simp
  · simp only [List.mem_map] at h
    obtain ⟨p, hp, rfl⟩ := h
    obtain ⟨k, hk, rfl⟩ := (mem_enumFrom_iff 2 etfs p).mp hp
    simp
    omega

theorem mem_noCostGrowthOps (nEtfs years : ℕ) (o : CellOp)
    (h : o ∈ noCostGrowthOps nEtfs years) :
    (∃ y, y ≤ years ∧ o = (17 + years + y, 0, toString y)) ∨
    (∃ y k, y ≤ years ∧ k < nEtfs ∧ o = noCostGrowthCell years y k) := by
  simp only [noCostGrowthOps, List.mem_flatMap, List.mem_range] at h
  obtain ⟨y, hy, ho⟩ := h
  rcases List.mem_cons.mp ho with rfl | ho
  · exact Or.inl ⟨y, by omega, rfl⟩
  · right
    simp only [List.mem_map, List.mem_range'] at ho
    obtain ⟨idx, ⟨i, hi, rfl⟩, rfl⟩ := ho
    refine ⟨y, i, by omega, hi, ?_⟩
    have h2 : 2 + 1 * i = i + 2 := by omega
    have h3 : i + 2 - 1 = i + 1 := by omega
    simp only [noCostGrowthCell, h2, h3]
    by_cases h0 : y = 0 <;> simp [h0]

theorem noCostGrowthCell_mem (nEtfs years y k : ℕ) (hy : y ≤ years) (hk : k < nEtfs) :
    noCostGrowthCell years y k ∈ noCostGrowthOps nEtfs years := by
  simp only [noCostGrowthOps, List.mem_flatMap, List.mem_range]
  refine ⟨y, by omega, ?_⟩
  refine List.mem_cons.mpr (Or.inr ?_)
  simp only [List.mem_map, List.mem_range']
  refine ⟨k + 2, ⟨k, hk, by omega⟩, ?_⟩
  have h3 : k + 2 - 1 = k + 1 := by omega
  simp only [noCostGrowthCell, h3]
  by_cases h0 : y = 0 <;> simp [h0]

theorem mem_summaryOps (etfs : List OverviewRow) (years : ℕ) (o : CellOp)
    (h : o ∈ summaryOps etfs years) :
    20 + 2 * years ≤ o.1 ∧ o.2.1 ≤ 5 := by
  simp only [summaryOps, List.mem_append, List.mem_cons, List.not_mem_nil, or_false] at h
  rcases h with (rfl | rfl | rfl | rfl | rfl | rfl) | h
  · simp
  · simp
  · simp
  · simp
  · simp
  · simp
  · simp only [List.mem_flatMap] at h
    obtain ⟨p, hp, ho⟩ := h
    obtain ⟨k, hk, rfl⟩ := (mem_enumFrom_iff 1 etfs p).mp hp
    simp only [List.mem_cons, List.not_mem_nil, or_false] at ho
    rcases ho with rfl | rfl | rfl | rfl | rfl | rfl <;> simp

/-! ## Success and failure of the builder -/

theorem projectionOps_col_lt (etfs : List OverviewRow) (years : ℕ) (cap inf dca : ℝ)
    (h5 : 5 ≤ etfs.length) (o : CellOp)
    (ho : o ∈ projectionOps etfs years cap inf dca) : o.2.1 < 1 + etfs.length := by
  simp only [projectionOps, List.mem_append, or_assoc] at ho
  rcases ho with h | h | h | h | h | h | h
  · have := mem_paramOps years cap inf dca o h
    omega
  · have := mem_rateOps etfs o h
    omega
  · have := mem_projHeaderOps etfs o h
    omega
  · rcases mem_netGrowthOps etfs.length years o h with ⟨y, _, rfl⟩ | ⟨y, k, _, hk, rfl⟩
    · simp
    · simp [netGrowthCell]
      omega
  · have := mem_noCostHeaderOps etfs years o h
    omega
  · rcases mem_noCostGrowthOps etfs.length years o h with ⟨y, _, rfl⟩ | ⟨y, k, _, hk, rfl⟩
    · simp
    · simp [noCostGrowthCell]
      omega
  · have := mem_summaryOps etfs years o h
    omega

theorem write_projection_success (etfs : List OverviewRow) (years : ℕ) (cap inf dca : ℝ)
    (h5 : 5 ≤ etfs.length) :
    write_projection_csv etfs years cap inf dca =
      some (applyOps (1 + etfs.length) [] (projectionOps etfs years cap inf dca)) := by
  have hne : etfs.isEmpty = false := by
    cases etfs with
    | nil => simp at h5
    | cons a t => simp
  simp only [write_projection_csv, hne, Bool.false_eq_true, if_false]
  exact applyOps?_eq_some _ _ [] (WFMat_nil _)
    (fun o ho => projectionOps_col_lt etfs years cap inf dca h5 o ho)

theorem setCell?_none (cols : ℕ) (m : SheetMatrix) (r c : ℕ) (v : String)
    (hWF : WFMat cols m) (hc : cols ≤ c) : setCell? cols m r c v = none := by
  obtain ⟨row, hrow⟩ := ensureRows_getElem?_isSome cols m r
  have hlen : row.length = cols := ensureRows_row_length cols m r r hWF row hrow
  simp [setCell?, hrow, hlen]
  omega

theorem applyOps?_append (cols : ℕ) (m : SheetMatrix) (l1 l2 : List CellOp) :
    applyOps? cols m (l1 ++ l2) =
      (applyOps? cols m l1).bind (fun m2 => applyOps? cols m2 l2) := by
  simp only [applyOps?, List.foldlM_append]
  rfl

/-- With a single instrument, the summary block writes column 2 of a
2-column matrix: the `IndexError` of `set_cell`. -/
theorem write_projection_crash_one (row : OverviewRow) (years : ℕ) (cap inf dca : ℝ) :
    write_projection_csv [row] years cap inf dca = none := by
  have hA : ∀ o ∈ (paramOps years cap inf dca ++ rateOps [row] ++ projHeaderOps [row]
      ++ netGrowthOps 1 years ++ noCostHeaderOps [row] years
      ++ noCostGrowthOps 1 years), o.2.1 < 2 := by
    intro o ho
    simp only [List.mem_append, or_assoc] at ho
    rcases ho with h | h | h | h | h | h
    · have := mem_paramOps years cap inf dca o h
      omega
    · have := mem_rateOps [row] o h
      simp at this
      omega
    · have := mem_projHeaderOps [row] o h
      simp at this
      omega
    · rcases mem_netGrowthOps 1 years o h with ⟨y, _, rfl⟩ | ⟨y, k, _, hk, rfl⟩
      · simp
      · simp [netGrowthCell]
        omega
    · have := mem_noCostHeaderOps [row] years o h
      simp at this
      omega
    · rcases mem_noCostGrowthOps 1 years o h with ⟨y, _, rfl⟩ | ⟨y, k, _, hk, rfl⟩
      · simp
      · simp [noCostGrowthCell]
        omega
  have hsplit : projectionOps [row] years cap inf dca =
      (paramOps years cap inf dca ++ rateOps [row] ++ projHeaderOps [row]
        ++ netGrowthOps 1 years ++ noCostHeaderOps [row] years
        ++ noCostGrowthOps 1 years) ++ summaryOps [row] years := by
    simp [projectionOps]
  have hcrash : ∀ m2 : SheetMatrix, WFMat 2 m2 →
      applyOps? 2 m2 (summaryOps [row] years) = none := by
    intro m2 hWF
    have e1 : summaryOps [row] years =
        (20 + 2 * years, 0, "ISIN") :: (20 + 2 * years, 1, "Nom ETF") ::
          (20 + 2 * years, 2, "Capital final net reel") ::
          ((20 + 2 * years, 3, "Capital final sans frais") ::
            (20 + 2 * years, 4, "Manque a gagner") ::
            (20 + 2 * years, 5, "Manque a gagner %") :: [] ++
            (List.enumFrom 1 [row]).flatMap (fun p =>
              let i := p.1
              let r := 20 + 2 * years + i
              let col := excel_col_name (i + 1)
              [(r, 0, p.2.isin), (r, 1, p.2.nom),
               (r, 2, "=" ++ col ++ toString (13 + years + 1)),
               (r, 3, "=" ++ col ++ toString (17 + 2 * years + 1)),
               (r, 4, "=D" ++ toString (r + 1) ++ "-C" ++ toString (r + 1)),
               (r, 5, "=E" ++ toString (r + 1) ++ "/D" ++ toString (r + 1))])) := by
      simp [summaryOps]
    rw [e1, applyOps?_cons]
    rw [setCell?_eq_some 2 m2 _ _ _ hWF (by simp)]
    rw [Option.some_bind, applyOps?_cons]
    rw [setCell?_eq_some 2 _ _ _ _ (WFMat_setCell 2 m2 _ _ _ hWF) (by simp)]
    rw [Option.some_bind, applyOps?_cons]
    rw [setCell?_none 2 _ _ _ _ (WFMat_setCell 2 _ _ _ _ (WFMat_setCell 2 m2 _ _ _ hWF))
      (by simp)]
    rfl
  have hpre := applyOps?_eq_some 2 (paramOps years cap inf dca ++ rateOps [row]
      ++ projHeaderOps [row] ++ netGrowthOps 1 years ++ noCostHeaderOps [row] years
      ++ noCostGrowthOps 1 years) [] (WFMat_nil 2) hA
  have : write_projection_csv [row] years cap inf dca =
      applyOps? 2 [] (projectionOps [row] years cap inf dca) := by
    simp [write_projection_csv]
  rw [this, hsplit, applyOps?_append, hpre, Option.some_bind]
  exact hcrash _ (WFMat_applyOps 2 _ [] (WFMat_nil 2))

/-! ## Cell contents of a successfully built projection matrix -/

theorem getCell_netGrowth (etfs : List OverviewRow) (years : ℕ) (cap inf dca : ℝ)
    (k : ℕ) (hk : k < etfs.length) (y : ℕ) (hy : y ≤ years) :
    getCell (applyOps (1 + etfs.length) [] (projectionOps etfs years cap inf dca))
      (13 + y) (k + 1) = (netGrowthCell y k).2.2 := by
  apply getCell_applyOps_write (1 + etfs.length) _ [] (13 + y) (k + 1) _ (WFMat_nil _)
    (by omega)
  · refine ⟨netGrowthCell y k, ?_, by simp [netGrowthCell], by simp [netGrowthCell]⟩
    refine List.mem_append.mpr (Or.inl ?_)
    refine List.mem_append.mpr (Or.inl ?_)
    refine List.mem_append.mpr (Or.inl ?_)
    exact List.mem_append.mpr (Or.inr (netGrowthCell_mem etfs.length years y k hy hk))
  · intro o ho hr hc
    simp only [projectionOps, List.mem_append, or_assoc] at ho
    rcases ho with h | h | h | h | h | h | h
    · have := mem_paramOps years cap inf dca o h
      omega
    · have := mem_rateOps etfs o h
      omega
    · have := mem_projHeaderOps etfs o h
      omega
    · rcases mem_netGrowthOps etfs.length years o h with ⟨y2, hy2, rfl⟩ |
        ⟨y2, k2, hy2, hk2, rfl⟩
      · simp at hc
      · simp only [netGrowthCell] at hr hc ⊢
        have : y2 = y := by omega
        subst this
        have : k2 = k := by omega
        subst this
        rfl
    · have := mem_noCostHeaderOps etfs years o h
      omega
    · rcases mem_noCostGrowthOps etfs.length years o h with ⟨y2, hy2, rfl⟩ |
        ⟨y2, k2, hy2, hk2, rfl⟩
      · simp at hr
        omega
      · simp only [noCostGrowthCell] at hr
        omega
    · have := mem_summaryOps etfs years o h
      omega

theorem getCell_noCostGrowth (etfs : List OverviewRow) (years : ℕ) (cap inf dca : ℝ)
    (k : ℕ) (hk : k < etfs.length) (y : ℕ) (hy : y ≤ years) :
    getCell (applyOps (1 + etfs.length) [] (projectionOps etfs years cap inf dca))
      (17 + years + y) (k + 1) = (noCostGrowthCell years y k).2.2 := by
  apply getCell_applyOps_write (1 + etfs.length) _ [] (17 + years + y) (k + 1) _
    (WFMat_nil _) (by omega)
  · refine ⟨noCostGrowthCell years y k, ?_, by simp [noCostGrowthCell],
      by simp [noCostGrowthCell]⟩
    refine List.mem_append.mpr (Or.inl ?_)
    exact List.mem_append.mpr (Or.inr (noCostGrowthCell_mem etfs.length years y k hy hk))
  · intro o ho hr hc
    simp only [projectionOps, List.mem_append, or_assoc] at ho
    rcases ho with h | h | h | h | h | h | h
    · have := mem_paramOps years cap inf dca o h
      omega
    · have := mem_rateOps etfs o h
      omega
    · have := mem_projHeaderOps etfs o h
      omega
    · rcases mem_netGrowthOps etfs.length years o h with ⟨y2, hy2, rfl⟩ |
        ⟨y2, k2, hy2, hk2, rfl⟩
      · simp at hr
        omega
      · simp only [netGrowthCell] at hr
        omega
    · have := mem_noCostHeaderOps etfs years o h
      omega
    · rcases mem_noCostGrowthOps etfs.length years o h with ⟨y2, hy2, rfl⟩ |
        ⟨y2, k2, hy2, hk2, rfl⟩
      · simp at hc
      · simp only [noCostGrowthCell] at hr hc ⊢
        have : y2 = y := by omega
        subst this
        have : k2 = k := by omega
        subst this
        rfl
    · have := mem_summaryOps etfs years o h
      omega

/-- The two spacer rows after each growth block (and before the summary) are
never written: each block contributes exactly `years + 1` data rows. -/
theorem getCell_projection_blank (etfs : List OverviewRow) (years : ℕ) (cap inf dca : ℝ)
    (r : ℕ)
    (hr : r = 14 + years ∨ r = 15 + years ∨ r = 18 + 2 * years ∨ r = 19 + 2 * years)
    (c : ℕ) :
    getCell (applyOps (1 + etfs.length) [] (projectionOps etfs years cap inf dca)) r c
      = "" := by
  rw [getCell_applyOps_no_write]
  · rfl
  · intro o ho hcoord
    obtain ⟨hrow, _⟩ := hcoord
    simp only [projectionOps, List.mem_append, or_assoc] at ho
    rcases ho with h | h | h | h | h | h | h
    · have := mem_paramOps years cap inf dca o h
      omega
    · have := mem_rateOps etfs o h
      omega
    · have := mem_projHeaderOps etfs o h
      omega
    · rcases mem_netGrowthOps etfs.length years o h with ⟨y2, hy2, rfl⟩ |
        ⟨y2, k2, hy2, hk2, rfl⟩
      · simp at hrow
        omega
      · simp only [netGrowthCell] at hrow
        omega
    · have := mem_noCostHeaderOps etfs years o h
      omega
    · rcases mem_noCostGrowthOps etfs.length years o h with ⟨y2, hy2, rfl⟩ |
        ⟨y2, k2, hy2, hk2, rfl⟩
      · simp at hrow
        omega
      · simp only [noCostGrowthCell] at hrow
        omega
    · have := mem_summaryOps etfs years o h
      omega

theorem rateOps_mem_target (etfs : List OverviewRow) (k : ℕ) (hk : k < etfs.length)
    (r : ℕ) (hr : r = 8 ∨ r = 9) :
    (r, k + 1,
      if r = 8 then "=" ++ fmt_number (etfs[k].cagr.getD 0 / 100) 10
      else "=" ++ fmt_number ((etfs[k].ter.getD 0 : ℝ) / 100) 10) ∈ rateOps etfs := by
  simp only [rateOps, List.mem_flatMap]
  refine ⟨(2 + k, etfs[k]), (mem_enumFrom_iff 2 etfs _).mpr ⟨k, hk, rfl⟩, ?_⟩
  have h1 : 2 + k - 1 = k + 1 := by omega
  rcases hr with rfl | rfl
  · simp [h1]
  · simp [h1]

theorem getCell_rateRow (etfs : List OverviewRow) (years : ℕ) (cap inf dca : ℝ)
    (k : ℕ) (hk : k < etfs.length) (r : ℕ) (hr : r = 8 ∨ r = 9) :
    getCell (applyOps (1 + etfs.length) [] (projectionOps etfs years cap inf dca))
      r (k + 1) =
      (if r = 8 then "=" ++ fmt_number (etfs[k].cagr.getD 0 / 100) 10
       else "=" ++ fmt_number ((etfs[k].ter.getD 0 : ℝ) / 100) 10) := by
  apply getCell_applyOps_write (1 + etfs.length) _ [] r (k + 1) _ (WFMat_nil _) (by omega)
  · refine ⟨(r, k + 1,
      if r = 8 then "=" ++ fmt_number (etfs[k].cagr.getD 0 / 100) 10
      else "=" ++ fmt_number ((etfs[k].ter.getD 0 : ℝ) / 100) 10), ?_, rfl, rfl⟩
    refine List.mem_append.mpr (Or.inl ?_)
    refine List.mem_append.mpr (Or.inl ?_)
    refine List.mem_append.mpr (Or.inl ?_)
    refine List.mem_append.mpr (Or.inl ?_)
    refine List.mem_append.mpr (Or.inl ?_)
    exact List.mem_append.mpr (Or.inr (rateOps_mem_target etfs k hk r hr))
  · intro o ho hro hc
    simp only [projectionOps, List.mem_append, or_assoc] at ho
    rcases ho with h | h | h | h | h | h | h
    · have := mem_paramOps years cap inf dca o h
      omega
    · have hval := rateOps_val etfs o h k hk hc
      rcases hr with rfl | rfl
      · simp [hval.2.2.1 hro]
      · simp [hval.2.2.2.1 hro]
    · have := mem_projHeaderOps etfs o h
      omega
    · rcases mem_netGrowthOps etfs.length years o h with ⟨y2, hy2, rfl⟩ |
        ⟨y2, k2, hy2, hk2, rfl⟩
      · simp at hro
        omega
      · simp only [netGrowthCell] at hro
        omega
    · have := mem_noCostHeaderOps etfs years o h
      omega
    · rcases mem_noCostGrowthOps etfs.length years o h with ⟨y2, hy2, rfl⟩ |
        ⟨y2, k2, hy2, hk2, rfl⟩
      · simp at hro
        omega
      · simp only [noCostGrowthCell] at hro
        omega
    · have := mem_summaryOps etfs years o h
      omega

theorem roundHalfEvenR_intCast (n : ℤ) : roundHalfEvenR (n : ℝ) = n := by
  rw [roundHalfEvenR, Int.fract_intCast, Int.floor_intCast]
  norm_num

theorem fmt_number_zero_ten : fmt_number 0 10 = "0" := by
  have h0 : (0 : ℝ) * 10 ^ 10 = ((0 : ℤ) : ℝ) := by norm_num
  rw [fmt_number, h0, roundHalfEvenR_intCast]
  decide

/-- The substitution `{r with cagr/ter filled with 0}` that the rate block
performs implicitly on missing metrics. -/
def fillMissingRates (r : OverviewRow) : OverviewRow :=
  { r with cagr := some (r.cagr.getD 0), ter := some (r.ter.getD 0) }

theorem rateOps_map_fill (etfs : List OverviewRow) :
    rateOps (etfs.map fillMissingRates) = rateOps etfs := by
  simp only [rateOps, List.enumFrom_map, List.flatMap_map]
  congr 1

theorem projHeaderOps_map_fill (etfs : List OverviewRow) :
    projHeaderOps (etfs.map fillMissingRates) = projHeaderOps etfs := by
  simp only [projHeaderOps, List.enumFrom_map, List.map_map]
  congr 2

theorem noCostHeaderOps_map_fill (etfs : List OverviewRow) (years : ℕ) :
    noCostHeaderOps (etfs.map fillMissingRates) years = noCostHeaderOps etfs years := by
  simp only [noCostHeaderOps, List.enumFrom_map, List.map_map]
  congr 2

theorem summaryOps_map_fill (etfs : List OverviewRow) (years : ℕ) :
    summaryOps (etfs.map fillMissingRates) years = summaryOps etfs years := by
  simp only [summaryOps, List.enumFrom_map, List.flatMap_map]
  congr 1

theorem projectionOps_map_fill (etfs : List OverviewRow) (years : ℕ)
    (cap inf dca : ℝ) :
    projectionOps (etfs.map fillMissingRates) years cap inf dca =
      projectionOps etfs years cap inf dca := by
  simp only [projectionOps, rateOps_map_fill, projHeaderOps_map_fill,
    noCostHeaderOps_map_fill, summaryOps_map_fill, List.length_map]

/-! ## Claims about the projection builder -/

/-- A concrete normalized record with absent CAGR and TER, used as witness
input. -/
def sampleRow : OverviewRow :=
  { isin := "IE00SAMPLE01", nom := "Sample ETF", ticker := "", indice := "", axe := ""
    categorie := "Satellite", devise := "EUR", ter := none, replication := ""
    distribution := "", domicile := "", promoteur := "", aum := none
    dateLancement := "", ageAnnees := none, volatilite := none, cagr := none
    nbAnneesNegatives := none, pireAnnee := none }

def sampleEtfs : List OverviewRow := [sampleRow, sampleRow, sampleRow, sampleRow, sampleRow]

/-- Claim C8: on an empty instrument list the projection builder emits exactly
one row holding the single explanatory placeholder cell, which is not a
formula — a defined degenerate output, not an error (`none` would model the
raised exception, and the result is `some`). -/
theorem claim_C8_empty_projection (years : ℕ) (capital inflation dca : ℝ) :
    write_projection_csv [] years capital inflation dca =
      some [["Aucun ETF exploitable"]] ∧
    ([["Aucun ETF exploitable"]] : SheetMatrix).length = 1 ∧
    (["Aucun ETF exploitable"] : List String).length = 1 ∧
    ("=".data.isPrefixOf "Aucun ETF exploitable".data) = false := by
  refine ⟨rfl, rfl, rfl, ?_⟩
  decide

/-- Claim C3 (code bug): whenever `write_projection_csv` completes, each
growth block has exactly `H+1` data rows per instrument column — year 0 is
the shared reference `=$B$2` to the initial-capital cell, and every year
`y ≥ 1` is a formula `=<col><previous row>*(1+<col>$11)+$B$4*12`
(fee-adjusted block; the fee-free block references `<col>$9`), i.e. previous
cell times (1 + rate) plus 12 times the monthly contribution, never a
precomputed literal; the two rows after each block stay blank.  However, for
a single-instrument list (in fact any list of 1–4 instruments) the builder
raises `IndexError` in its summary block — the summary writes column 5 of a
`1+N`-column matrix — so no sheet is produced at all: the first conjunct
evaluates the code on the failing input. -/
theorem claim_C3_growth_blocks :
    (∀ (row : OverviewRow) (years : ℕ) (capital inflation dca : ℝ),
        write_projection_csv [row] years capital inflation dca = none) ∧
    (∀ (etfs : List OverviewRow) (years : ℕ) (capital inflation dca : ℝ)
        (M : SheetMatrix),
        write_projection_csv etfs years capital inflation dca = some M →
        etfs ≠ [] → 1 ≤ years →
        ∀ k, k < etfs.length → ∀ y, y ≤ years →
          (getCell M (13 + y) (k + 1) =
            (if y = 0 then "=$B$2"
             else "=" ++ excel_col_name (k + 2) ++ toString (13 + y) ++ "*(1+" ++
               excel_col_name (k + 2) ++ "$11)+$B$4*12")) ∧
          (getCell M (17 + years + y) (k + 1) =
            (if y = 0 then "=$B$2"
             else "=" ++ excel_col_name (k + 2) ++ toString (17 + years + y) ++ "*(1+" ++
               excel_col_name (k + 2) ++ "$9)+$B$4*12")) ∧
          getCell M (14 + years) (k + 1) = "" ∧
          getCell M (15 + years) (k + 1) = "" ∧
          getCell M (18 + 2 * years) (k + 1) = "" ∧
          getCell M (19 + 2 * years) (k + 1) = "") := by
  constructor
  · exact write_projection_crash_one
  · intro etfs years capital inflation dca M h hne hy k hk y hyy
    have hne2 : etfs.isEmpty = false := by
      cases etfs with
      | nil => simp at hne
      | cons a t => simp
    simp only [write_projection_csv, hne2, Bool.false_eq_true, if_false] at h
    have hM := applyOps?_some_imp _ _ _ _ h
    subst hM
    refine ⟨?_, ?_, ?_, ?_, ?_, ?_⟩
    · have h1 := getCell_netGrowth etfs years capital inflation dca k hk y hyy
      simpa only [netGrowthCell] using h1
    · have h1 := getCell_noCostGrowth etfs years capital inflation dca k hk y hyy
      simpa only [noCostGrowthCell] using h1
    · exact getCell_projection_blank etfs years capital inflation dca _ (by omega) _
    · exact getCell_projection_blank etfs years capital inflation dca _ (by omega) _
    · exact getCell_projection_blank etfs years capital inflation dca _ (by omega) _
    · exact getCell_projection_blank etfs years capital inflation dca _ (by omega) _

theorem claim_C3_growth_blocks_witness :
    (write_projection_csv sampleEtfs 1 10000 (2 / 100) 0 =
        some (applyOps (1 + sampleEtfs.length) []
          (projectionOps sampleEtfs 1 10000 (2 / 100) 0)) ∧
      sampleEtfs ≠ [] ∧ (1 : ℕ) ≤ 1 ∧ 0 < sampleEtfs.length ∧ (1 : ℕ) ≤ 1) ∧
    ((getCell (applyOps (1 + sampleEtfs.length) []
          (projectionOps sampleEtfs 1 10000 (2 / 100) 0)) (13 + 1) (0 + 1) =
        (if 1 = 0 then "=$B$2"
         else "=" ++ excel_col_name (0 + 2) ++ toString (13 + 1) ++ "*(1+" ++
           excel_col_name (0 + 2) ++ "$11)+$B$4*12")) ∧
      (getCell (applyOps (1 + sampleEtfs.length) []
          (projectionOps sampleEtfs 1 10000 (2 / 100) 0)) (17 + 1 + 1) (0 + 1) =
        (if 1 = 0 then "=$B$2"
         else "=" ++ excel_col_name (0 + 2) ++ toString (17 + 1 + 1) ++ "*(1+" ++
           excel_col_name (0 + 2) ++ "$9)+$B$4*12")) ∧
      getCell (applyOps (1 + sampleEtfs.length) []
        (projectionOps sampleEtfs 1 10000 (2 / 100) 0)) (14 + 1) (0 + 1) = "" ∧
      getCell (applyOps (1 + sampleEtfs.length) []
        (projectionOps sampleEtfs 1 10000 (2 / 100) 0)) (15 + 1) (0 + 1) = "" ∧
      getCell (applyOps (1 + sampleEtfs.length) []
        (projectionOps sampleEtfs 1 10000 (2 / 100) 0)) (18 + 2 * 1) (0 + 1) = "" ∧
      getCell (applyOps (1 + sampleEtfs.length) []
        (projectionOps sampleEtfs 1 10000 (2 / 100) 0)) (19 + 2 * 1) (0 + 1) = "") :=
  ⟨⟨write_projection_success sampleEtfs 1 10000 (2 / 100) 0 (by decide),
    by simp [sampleEtfs], by decide, by decide, by decide⟩,
   claim_C3_growth_blocks.2 sampleEtfs 1 10000 (2 / 100) 0 _
     (write_projection_success sampleEtfs 1 10000 (2 / 100) 0 (by decide))
     (by simp [sampleEtfs]) (by decide) 0 (by decide) 1 (by decide)⟩

/-- Claim C10: in the rate block, an instrument with an absent (non-numeric)
CAGR or TER gets `0.0` substituted, so its rate cell is the formula text
`=0`; consequently the whole emitted sheet is identical to the one for the
same instruments with a measured value of zero — inside the projection sheet
the two are indistinguishable. -/
theorem claim_C10_absent_rates_zero :
    (∀ (etfs : List OverviewRow) (years : ℕ) (capital inflation dca : ℝ),
        write_projection_csv (etfs.map fillMissingRates) years capital inflation dca =
          write_projection_csv etfs years capital inflation dca) ∧
    (∀ (etfs : List OverviewRow) (years : ℕ) (capital inflation dca : ℝ)
        (M : SheetMatrix),
        write_projection_csv etfs years capital inflation dca = some M →
        ∀ k, ∀ hk : k < etfs.length,
          (etfs[k].cagr = none → getCell M 8 (k + 1) = "=0") ∧
          (etfs[k].ter = none → getCell M 9 (k + 1) = "=0")) := by
  constructor
  · intro etfs years capital inflation dca
    have hemp : (etfs.map fillMissingRates).isEmpty = etfs.isEmpty := by
      cases etfs <;> simp
    simp only [write_projection_csv, hemp, projectionOps_map_fill, List.length_map]
  · intro etfs years capital inflation dca M h k hk
    have hne2 : etfs.isEmpty = false := by
      cases etfs with
      | nil => simp at hk
      | cons a t => simp
    simp only [write_projection_csv, hne2, Bool.false_eq_true, if_false] at h
    have hM := applyOps?_some_imp _ _ _ _ h
    subst hM
    constructor
    · intro hcagr
      have h1 := getCell_rateRow etfs years capital inflation dca k hk 8 (Or.inl rfl)
      have h2 : getCell (applyOps (1 + etfs.length) []
          (projectionOps etfs years capital inflation dca)) 8 (k + 1) =
          "=" ++ fmt_number (etfs[k].cagr.getD 0 / 100) 10 := by
        simpa using h1
      rw [h2, hcagr]
      have h3 : (Option.getD (none : Option ℝ) 0) / 100 = (0 : ℝ) := by simp
      rw [h3, fmt_number_zero_ten]
      decide
    · intro hter
      have h1 := getCell_rateRow etfs years capital inflation dca k hk 9 (Or.inr rfl)
      have h2 : getCell (applyOps (1 + etfs.length) []
          (projectionOps etfs years capital inflation dca)) 9 (k + 1) =
          "=" ++ fmt_number ((etfs[k].ter.getD 0 : ℝ) / 100) 10 := by
        simpa using h1
      rw [h2, hter]
      have h3 : ((Option.getD (none : Option ℚ) 0 : ℚ) : ℝ) / 100 = (0 : ℝ) := by simp
      rw [h3, fmt_number_zero_ten]
      decide

theorem claim_C10_absent_rates_zero_witness :
    (write_projection_csv sampleEtfs 1 10000 (2 / 100) 0 =
        some (applyOps (1 + sampleEtfs.length) []
          (projectionOps sampleEtfs 1 10000 (2 / 100) 0)) ∧
      0 < sampleEtfs.length ∧ sampleEtfs[0].cagr = none ∧ sampleEtfs[0].ter = none) ∧
    getCell (applyOps (1 + sampleEtfs.length) []
      (projectionOps sampleEtfs 1 10000 (2 / 100) 0)) 8 (0 + 1) = "=0" ∧
    getCell (applyOps (1 + sampleEtfs.length) []
      (projectionOps sampleEtfs 1 10000 (2 / 100) 0)) 9 (0 + 1) = "=0" :=
  ⟨⟨write_projection_success sampleEtfs 1 10000 (2 / 100) 0 (by decide),
    by decide, rfl, rfl⟩,
   (claim_C10_absent_rates_zero.2 sampleEtfs 1 10000 (2 / 100) 0 _
     (write_projection_success sampleEtfs 1 10000 (2 / 100) 0 (by decide))
     0 (by decide)).1 rfl,
   (claim_C10_absent_rates_zero.2 sampleEtfs 1 10000 (2 / 100) 0 _
     (write_projection_success sampleEtfs 1 10000 (2 / 100) 0 (by decide))
     0 (by decide)).2 rfl⟩

/-! ## Claim C6: category classification -/

/-- Claim C6: the category is a case-insensitive substring match over the
blank-joined name+axis text — `"core"` gives `"Core"`, else `"hedg"` gives
`"Hedge"`, else `"Satellite"`; the `"core"` test runs first, so a text
containing both substrings is `"Core"`.  The concrete conjuncts check the
spec's examples, including an absent axis. -/
theorem claim_C6_classify_category :
    (∀ name axis : Option String,
      (containsSub "core".data
          (((name.getD "") ++ " " ++ (axis.getD "")).data.map lowerChar) = true →
        classify_category name axis = "Core") ∧
      (containsSub "core".data
          (((name.getD "") ++ " " ++ (axis.getD "")).data.map lowerChar) = false →
       containsSub "hedg".data
          (((name.getD "") ++ " " ++ (axis.getD "")).data.map lowerChar) = true →
        classify_category name axis = "Hedge") ∧
      (containsSub "core".data
          (((name.getD "") ++ " " ++ (axis.getD "")).data.map lowerChar) = false →
       containsSub "hedg".data
          (((name.getD "") ++ " " ++ (axis.getD "")).data.map lowerChar) = false →
        classify_category name axis = "Satellite")) ∧
    classify_category (some "MSCI World Core UCITS ETF") none = "Core" ∧
    classify_category (some "Amundi Global AGG USD Hedged") none = "Hedge" ∧
    classify_category (some "MSCI Emerging Markets Small Cap") none = "Satellite" ∧
    classify_category (some "Core Euro Hedged") none = "Core" := by
  refine ⟨?_, by decide, by decide, by decide, by decide⟩
  intro name axis
  refine ⟨?_, ?_, ?_⟩
  · intro h1
    simp at h1
    simp [classify_category, h1]
  · intro h1 h2
    simp at h1 h2
    simp [classify_category, h1, h2]
  · intro h1 h2
    simp at h1 h2
    simp [classify_category, h1, h2]

theorem claim_C6_classify_category_witness :
    containsSub "core".data
        ((((some "iShares Core MSCI World").getD "") ++ " " ++
          ((none : Option String).getD "")).data.map lowerChar) = true ∧
    classify_category (some "iShares Core MSCI World") none = "Core" :=
  ⟨by decide,
   (claim_C6_classify_category.1 (some "iShares Core MSCI World") none).1 (by decide)⟩

/-! ## Claim C1: compound CAGR from the monthly grid -/

theorem foldl_compound_eq_prod (l : List ℚ) (a : ℚ) :
    l.foldl (fun acc r => acc * (1 + r / 100)) a = a * (l.map (fun r => 1 + r / 100)).prod := by
  induction l generalizing a with
  | nil => simp
  | cons x t ih =>
    simp only [List.foldl_cons, List.map_cons, List.prod_cons, ih, mul_assoc]

theorem foldl_compound_points_eq_prod (l : List (ℤ × ℤ × ℚ)) (a : ℚ) :
    l.foldl (fun acc p => acc * (1 + p.2.2 / 100)) a =
      a * (l.map (fun p => 1 + p.2.2 / 100)).prod := by
  induction l generalizing a with
  | nil => simp
  | cons x t ih =>
    simp only [List.foldl_cons, List.map_cons, List.prod_cons, ih, mul_assoc]

theorem cagrReturns_eq (hm : JVal) (vs : List JVal) (h : heatmapValues hm = some vs) :
    cagrReturns hm = vs.filterMap (fun row =>
      match row with
      | .jobj _ => asNum (jget row "return_pct")
      | _ => none) := by
  simp [cagrReturns, h]

theorem compute_cagr_of_empty (hm : JVal) (h : cagrReturns hm = []) :
    compute_cagr_from_heatmap hm = none := by
  rw [compute_cagr_from_heatmap]
  cases hv : heatmapValues hm with
  | none => rfl
  | some vs =>
    dsimp only
    rw [← cagrReturns_eq hm vs hv, h]
    by_cases hemp : vs.isEmpty <;> simp [hemp]

theorem compute_cagr_of_nonpos (hm : JVal)
    (h : ((cagrReturns hm).map (fun r => 1 + r / 100)).prod ≤ 0) :
    compute_cagr_from_heatmap hm = none := by
  rw [compute_cagr_from_heatmap]
  cases hv : heatmapValues hm with
  | none => rfl
  | some vs =>
    dsimp only
    rw [← cagrReturns_eq hm vs hv]
    by_cases hemp : vs.isEmpty
    · simp [hemp]
    · simp only [hemp, Bool.false_eq_true, if_false]
      by_cases hrn : (cagrReturns hm).isEmpty
      · simp [hrn]
      · simp only [hrn, Bool.false_eq_true, if_false]
        rw [foldl_compound_eq_prod, one_mul]
        simp [h]

theorem compute_cagr_of_pos (hm : JVal) (hne : cagrReturns hm ≠ [])
    (hpos : 0 < ((cagrReturns hm).map (fun r => 1 + r / 100)).prod) :
    compute_cagr_from_heatmap hm =
      some ((((((cagrReturns hm).map (fun r => 1 + r / 100)).prod : ℚ) : ℝ) ^
        ((12 : ℝ) / ((cagrReturns hm).length : ℝ)) - 1) * 100) := by
  rw [compute_cagr_from_heatmap]
  cases hv : heatmapValues hm with
  | none =>
    rw [cagrReturns] at hne
    simp [hv] at hne
  | some vs =>
    dsimp only
    rw [← cagrReturns_eq hm vs hv]
    have hemp : vs.isEmpty = false := by
      cases vs with
      | nil =>
        rw [cagrReturns_eq hm [] hv] at hne
        simp at hne
      | cons a t => simp
    simp only [hemp, Bool.false_eq_true, if_false]
    have hne2 : (cagrReturns hm).isEmpty = false := by
      cases hcr : cagrReturns hm with
      | nil => exact absurd hcr hne
      | cons a t => simp
    simp only [hne2, Bool.false_eq_true, if_false]
    rw [foldl_compound_eq_prod, one_mul]
    have h1 : ¬ ((cagrReturns hm).map (fun r => 1 + r / 100)).prod ≤ 0 :=
      not_le.mpr hpos
    simp only [h1, if_false]

theorem scrapePoints_eq (hm : JVal) (vs : List JVal) (h : heatmapValues hm = some vs) :
    scrapePoints hm = vs.filterMap (fun row =>
      match row with
      | .jobj _ =>
        match asInt (jget row "month_index"), asNum (jget row "return_pct"),
            scrapeYearOf row with
        | some m, some r, some y => some (y, m, r)
        | _, _, _ => none
      | _ => none) := by
  simp [scrapePoints, h]

theorem pyTruthy_of_heatmapValues (hm : JVal) (vs : List JVal)
    (h : heatmapValues hm = some vs) : pyTruthy hm = true := by
  cases hm with
  | jobj fs =>
    cases hfind : fs.reverse.find? (fun p => p.1 == "values") with
    | none => simp [heatmapValues, jget, jgetD, hfind] at h
    | some p =>
      have hmem := List.mem_of_find?_eq_some hfind
      cases fs with
      | nil => simp at hmem
      | cons a t => simp [pyTruthy]
  | null => simp [heatmapValues] at h
  | jbool b => simp [heatmapValues] at h
  | jint n => simp [heatmapValues] at h
  | jnum q => simp [heatmapValues] at h
  | jstr s => simp [heatmapValues] at h
  | jarr xs => simp [heatmapValues] at h

theorem scrape_cagr_of_empty (hm : JVal) (h : scrapePoints hm = []) :
    scrape_compute_cagr_from_heatmap hm = none := by
  rw [scrape_compute_cagr_from_heatmap]
  by_cases ht : pyTruthy hm
  · simp only [ht, not_true_eq_false, Bool.false_eq_true, if_false]
    cases hv : heatmapValues hm with
    | none => rfl
    | some vs =>
      dsimp only
      by_cases hemp : vs.isEmpty <;> simp [hemp, h]
  · simp [ht]

theorem scrape_cagr_of_nonpos (hm : JVal)
    (h : ((scrapePoints hm).map (fun p => 1 + p.2.2 / 100)).prod ≤ 0) :
    scrape_compute_cagr_from_heatmap hm = none := by
  rw [scrape_compute_cagr_from_heatmap]
  by_cases ht : pyTruthy hm
  · simp only [ht, not_true_eq_false, Bool.false_eq_true, if_false]
    cases hv : heatmapValues hm with
    | none => rfl
    | some vs =>
      dsimp only
      by_cases hemp : vs.isEmpty
      · simp [hemp]
      · simp only [hemp, Bool.false_eq_true, if_false]
        by_cases hps : (scrapePoints hm).isEmpty
        · simp [hps]
        · simp only [hps, Bool.false_eq_true, if_false]
          rw [foldl_compound_points_eq_prod, one_mul]
          have hprod : ((pySorted pointLe (scrapePoints hm)).map
              (fun p => 1 + p.2.2 / 100)).prod =
              ((scrapePoints hm).map (fun p => 1 + p.2.2 / 100)).prod :=
            ((pySorted_perm pointLe (scrapePoints hm)).map _).prod_eq
          rw [hprod]
          simp [h]
  · simp [ht]

theorem scrape_cagr_of_pos (hm : JVal) (hne : scrapePoints hm ≠ [])
    (hpos : 0 < ((scrapePoints hm).map (fun p => 1 + p.2.2 / 100)).prod) :
    scrape_compute_cagr_from_heatmap hm =
      some ((((((scrapePoints hm).map (fun p => 1 + p.2.2 / 100)).prod : ℚ) : ℝ) ^
        ((12 : ℝ) / ((scrapePoints hm).length : ℝ)) - 1) * 100) := by
  have hv : ∃ vs, heatmapValues hm = some vs := by
    cases hv : heatmapValues hm with
    | none => rw [scrapePoints] at hne; simp [hv] at hne
    | some vs => exact ⟨vs, rfl⟩
  obtain ⟨vs, hv⟩ := hv
  have ht := pyTruthy_of_heatmapValues hm vs hv
  rw [scrape_compute_cagr_from_heatmap]
  simp only [ht, not_true_eq_false, Bool.false_eq_true, if_false]
  rw [hv]
  dsimp only
  have hemp : vs.isEmpty = false := by
    cases vs with
    | nil =>
      rw [scrapePoints_eq hm [] hv] at hne
      simp at hne
    | cons a t => simp
  simp only [hemp, Bool.false_eq_true, if_false]
  have hps : (scrapePoints hm).isEmpty = false := by
    cases hcr : scrapePoints hm with
    | nil => exact absurd hcr hne
    | cons a t => simp
  simp only [hps, Bool.false_eq_true, if_false]
  rw [foldl_compound_points_eq_prod, one_mul]
  have hperm := pySorted_perm pointLe (scrapePoints hm)
  have hprod : ((pySorted pointLe (scrapePoints hm)).map
      (fun p => 1 + p.2.2 / 100)).prod =
      ((scrapePoints hm).map (fun p => 1 + p.2.2 / 100)).prod :=
    (hperm.map _).prod_eq
  have hlen : (pySorted pointLe (scrapePoints hm)).length = (scrapePoints hm).length :=
    hperm.length_eq
  rw [hprod, hlen]
  have h2 : ¬ ((scrapePoints hm).length ≤ 0 ∨
      ((scrapePoints hm).map (fun p => 1 + p.2.2 / 100)).prod ≤ 0) := by
    push_neg
    refine ⟨?_, hpos⟩
    cases hcr : scrapePoints hm with
    | nil => exact absurd hcr hne
    | cons a t => simp
  simp only [h2, if_false]

/-- A grid of twelve monthly observations, all with return 0. -/
def zeroHeatmap12 : JVal :=
  .jobj [("values", .jarr (
    ([1, 2, 3, 4, 5, 6, 7, 8, 9, 10, 11, 12] : List ℤ).map (fun m =>
      JVal.jobj [("year", .jint 2020), ("month_index", .jint m), ("return_pct", .jint 0)])))]

/-- Claim C1: both CAGR computations return absent exactly on a grid with no
return points or a non-positive compounded factor, and otherwise return
`(∏(1+rᵢ/100))^(12/count) − 1` as a percentage, where `count` is the number
of observations actually present (the length of the extracted point list,
not wall-clock months).  A missing grid gives absent (never zero, never an
exception — the functions are total), and the all-zero twelve-month grid
gives exactly 0. -/
theorem claim_C1_compound_cagr :
    (∀ hm : JVal,
      (cagrReturns hm = [] → compute_cagr_from_heatmap hm = none) ∧
      (((cagrReturns hm).map (fun r => 1 + r / 100)).prod ≤ 0 →
        compute_cagr_from_heatmap hm = none) ∧
      (cagrReturns hm ≠ [] →
       0 < ((cagrReturns hm).map (fun r => 1 + r / 100)).prod →
        compute_cagr_from_heatmap hm =
          some ((((((cagrReturns hm).map (fun r => 1 + r / 100)).prod : ℚ) : ℝ) ^
            ((12 : ℝ) / ((cagrReturns hm).length : ℝ)) - 1) * 100)) ∧
      (scrapePoints hm = [] → scrape_compute_cagr_from_heatmap hm = none) ∧
      (((scrapePoints hm).map (fun p => 1 + p.2.2 / 100)).prod ≤ 0 →
        scrape_compute_cagr_from_heatmap hm = none) ∧
      (scrapePoints hm ≠ [] →
       0 < ((scrapePoints hm).map (fun p => 1 + p.2.2 / 100)).prod →
        scrape_compute_cagr_from_heatmap hm =
          some ((((((scrapePoints hm).map (fun p => 1 + p.2.2 / 100)).prod : ℚ) : ℝ) ^
            ((12 : ℝ) / ((scrapePoints hm).length : ℝ)) - 1) * 100))) ∧
    compute_cagr_from_heatmap .null = none ∧
    scrape_compute_cagr_from_heatmap .null = none ∧
    compute_cagr_from_heatmap zeroHeatmap12 = some 0 := by
  refine ⟨fun hm => ⟨compute_cagr_of_empty hm, compute_cagr_of_nonpos hm,
      compute_cagr_of_pos hm, scrape_cagr_of_empty hm, scrape_cagr_of_nonpos hm,
      scrape_cagr_of_pos hm⟩, rfl, rfl, ?_⟩
  have h : cagrReturns zeroHeatmap12 = List.replicate 12 (0 : ℚ) := by decide
  have h1 := compute_cagr_of_pos zeroHeatmap12
    (by rw [h]; simp)
    (by rw [h]; norm_num [List.prod_replicate])
  rw [h1, h]
  norm_num [List.prod_replicate, Real.one_rpow]

theorem claim_C1_compound_cagr_witness :
    cagrReturns JVal.null = [] ∧ compute_cagr_from_heatmap JVal.null = none :=
  ⟨rfl, (claim_C1_compound_cagr.1 JVal.null).1 rfl⟩

/-! ## Claim C2: calendar-year returns -/

theorem foldl_compound_pairs_eq_prod (l : List (ℤ × ℚ)) (a : ℚ) :
    l.foldl (fun acc pr => acc * (1 + pr.2 / 100)) a =
      a * (l.map (fun pr => 1 + pr.2 / 100)).prod := by
  induction l generalizing a with
  | nil => simp
  | cons x t ih =>
    simp only [List.foldl_cons, List.map_cons, List.prod_cons, ih, mul_assoc]

theorem yearCompounded_eq_prod (hm : JVal) (y : ℤ) :
    yearCompounded hm y =
      (((yearlyPoints hm).filter (fun p => decide (p.1 = y))).map
        (fun p => 1 + p.2.2 / 100)).prod := by
  rw [yearCompounded, foldl_compound_pairs_eq_prod, one_mul]
  have hperm := pySorted_perm (fun a b : ℤ × ℚ => decide (a.1 ≤ b.1))
    (((yearlyPoints hm).filter (fun p => decide (p.1 = y))).map (fun p => (p.2.1, p.2.2)))
  rw [(hperm.map (fun pr : ℤ × ℚ => 1 + pr.2 / 100)).prod_eq, List.map_map]
  rfl

theorem compute_yearly_eq_map (hm : JVal) :
    compute_yearly_returns_from_heatmap hm =
      (sortedYears hm).map (fun y => (yearCompounded hm y - 1) * 100) := by
  rw [compute_yearly_returns_from_heatmap]
  cases hv : heatmapValues hm with
  | none =>
    have : yearlyPoints hm = [] := by
      rw [yearlyPoints, hv]
    simp [sortedYears, this, pySorted]
  | some vs => rfl

/-- Claim C2: `compute_yearly_returns_from_heatmap` produces one entry per
distinct year among the valid grid points, in strictly ascending year order;
each entry compounds exactly that year's points
(`(∏(1+r/100) − 1) · 100`); the negative-year count is the number of
entries below zero and the worst year is the minimum entry, absent exactly
when the list is empty. -/
theorem claim_C2_yearly_returns (hm : JVal) :
    (compute_yearly_returns_from_heatmap hm).length =
      ((yearlyPoints hm).map (fun p => p.1)).toFinset.card ∧
    List.Pairwise (fun a b : ℤ => a < b) (sortedYears hm) ∧
    (∀ y : ℤ, y ∈ sortedYears hm ↔ y ∈ (yearlyPoints hm).map (fun p => p.1)) ∧
    compute_yearly_returns_from_heatmap hm =
      (sortedYears hm).map (fun y =>
        (((((yearlyPoints hm).filter (fun p => decide (p.1 = y))).map
          (fun p => 1 + p.2.2 / 100)).prod - 1) * 100)) ∧
    (compute_yearly_returns_from_heatmap hm).countP (fun r => decide (r < 0)) =
      ((compute_yearly_returns_from_heatmap hm).filter (fun r => decide (r < 0))).length ∧
    ((compute_yearly_returns_from_heatmap hm).min? = none ↔
      compute_yearly_returns_from_heatmap hm = []) ∧
    (compute_yearly_returns_from_heatmap hm ≠ [] →
      ∃ w, (compute_yearly_returns_from_heatmap hm).min? = some w ∧
        w ∈ compute_yearly_returns_from_heatmap hm ∧
        ∀ x ∈ compute_yearly_returns_from_heatmap hm, w ≤ x) := by
  have hsorted0 := pySorted_sorted (fun a b : ℤ => decide (a ≤ b))
    (fun a b c h1 h2 => by
      simp only [decide_eq_true_eq] at h1 h2 ⊢
      omega)
    (fun a b => by
      by_cases h : a ≤ b
      · exact Or.inl (by simpa using h)
      · exact Or.inr (by simp; omega))
    ((yearlyPoints hm).map (fun p => p.1)).dedup
  have hperm := pySorted_perm (fun a b : ℤ => decide (a ≤ b))
    ((yearlyPoints hm).map (fun p => p.1)).dedup
  have hnodup : (sortedYears hm).Nodup :=
    (List.nodup_dedup _).perm hperm.symm
  have hle : List.Pairwise (fun a b : ℤ => a ≤ b) (sortedYears hm) :=
    hsorted0.imp (fun h => by simpa using h)
  refine ⟨?_, ?_, ?_, ?_, ?_, ?_, ?_⟩
  · rw [compute_yearly_eq_map, List.length_map, List.card_toFinset]
    exact hperm.length_eq
  · exact List.Sorted.lt_of_le hle hnodup
  · intro y
    rw [sortedYears, hperm.mem_iff, List.mem_dedup]
  · rw [compute_yearly_eq_map]
    refine List.map_congr_left ?_
    intro y hy
    rw [yearCompounded_eq_prod]
  · exact List.countP_eq_length_filter _ _
  · exact List.min?_eq_none_iff
  · intro hne
    cases hmin : (compute_yearly_returns_from_heatmap hm).min? with
    | none => exact absurd (List.min?_eq_none_iff.mp hmin) hne
    | some w =>
      refine ⟨w, rfl, ?_⟩
      have inst : Std.Antisymm (fun x1 x2 : ℚ => x1 ≤ x2) :=
        ⟨fun h1 h2 => le_antisymm h1 h2⟩
      rw [List.min?_eq_some_iff] at hmin
      · exact hmin
      · exact fun a => le_refl a
      · exact fun a b => min_choice a b
      · exact fun a b c => le_min_iff

theorem claim_C2_yearly_returns_witness :
    compute_yearly_returns_from_heatmap zeroHeatmap12 ≠ [] ∧
    (∃ w, (compute_yearly_returns_from_heatmap zeroHeatmap12).min? = some w ∧
      w ∈ compute_yearly_returns_from_heatmap zeroHeatmap12 ∧
      ∀ x ∈ compute_yearly_returns_from_heatmap zeroHeatmap12, w ≤ x) :=
  ⟨by decide, (claim_C2_yearly_returns zeroHeatmap12).2.2.2.2.2.2 (by decide)⟩

/-! ## Claim C5: grid CAGR takes priority over the fallback -/

/-- Claim C5: in the scrape loop the heatmap-derived CAGR is always written
when present (the fallback is not consulted); the fallback estimate is used
exactly when the grid CAGR is absent; when both are absent no CAGR key is
written.  On the export side, a record whose stored CAGR field is
non-numeric and whose grid yields nothing keeps a null CAGR metric — never
zero. -/
theorem claim_C5_cagr_priority :
    (∀ (hm : JVal) (meta : Option MetaTexts) (today : PyDate),
      (∀ c, scrape_compute_cagr_from_heatmap hm = some c →
        scrape_assign_cagr hm meta today = some (pyRound c 6, "heatmap_mensuelle")) ∧
      (scrape_compute_cagr_from_heatmap hm = none →
        scrape_assign_cagr hm meta today =
          (compute_cagr_from_max_return meta today).map
            (fun c => (pyRound c 6, "max_return_plus_launch_date"))) ∧
      (scrape_compute_cagr_from_heatmap hm = none →
       compute_cagr_from_max_return meta today = none →
        scrape_assign_cagr hm meta today = none)) ∧
    (∀ (today : PyDate) (tm : List (String × String)) (d : JVal) (row : OverviewRow),
      normalizeDoc today tm d = some row →
      asNum (jget d "cagr_depuis_creation_pct") = none →
      compute_cagr_from_heatmap (jget d "heatmap_mensuelle") = none →
      row.cagr = none) := by
  constructor
  · intro hm meta today
    refine ⟨?_, ?_, ?_⟩
    · intro c hc
      rw [scrape_assign_cagr, hc]
    · intro hc
      rw [scrape_assign_cagr, hc]
      cases compute_cagr_from_max_return meta today <;> rfl
    · intro hc hf
      rw [scrape_assign_cagr, hc, hf]
  · intro today tm d row h hstored hgrid
    cases d with
    | jobj fs =>
      rw [normalizeDoc] at h
      dsimp only at h
      by_cases hisin : pyUpper (pyStrip (pyStr (jgetD (JVal.jobj fs) "isin" (.jstr "")))) = ""
      · rw [if_pos hisin] at h
        exact absurd h (by simp)
      · rw [if_neg hisin] at h
        have hrow := Option.some.inj h
        rw [← hrow]
        dsimp only
        rw [hstored, hgrid]
    | null =>
      have h0 : normalizeDoc today tm JVal.null = none := rfl
      rw [h0] at h
      exact absurd h (by simp)
    | jbool b =>
      have h0 : normalizeDoc today tm (JVal.jbool b) = none := rfl
      rw [h0] at h
      exact absurd h (by simp)
    | jint n =>
      have h0 : normalizeDoc today tm (JVal.jint n) = none := rfl
      rw [h0] at h
      exact absurd h (by simp)
    | jnum q =>
      have h0 : normalizeDoc today tm (JVal.jnum q) = none := rfl
      rw [h0] at h
      exact absurd h (by simp)
    | jstr s =>
      have h0 : normalizeDoc today tm (JVal.jstr s) = none := rfl
      rw [h0] at h
      exact absurd h (by simp)
    | jarr xs =>
      have h0 : normalizeDoc today tm (JVal.jarr xs) = none := rfl
      rw [h0] at h
      exact absurd h (by simp)

theorem claim_C5_cagr_priority_witness :
    scrape_compute_cagr_from_heatmap JVal.null = none ∧
    compute_cagr_from_max_return none ⟨2025, 1, 1⟩ = none ∧
    scrape_assign_cagr JVal.null none ⟨2025, 1, 1⟩ = none :=
  ⟨rfl, rfl, (claim_C5_cagr_priority.1 JVal.null none ⟨2025, 1, 1⟩).2.2 rfl rfl⟩

/-! ## Claim C9: per-document isolation in the normalizer -/

/-- A document with an ISIN but no name field. -/
def noNameDoc : JVal := .jobj [("isin", .jstr "IE00NONAME01")]

/-- Claim C9 counterexample: the claim says a document missing required facts
— "e.g., one with no name" — contributes no row.  In `build_overview_rows` a
document with no `nom` field is *not* rejected: it contributes a row (with an
empty display name). -/
theorem claim_C9_counterexample_no_name :
    jget noNameDoc "nom" = JVal.null ∧
    (normalizeDoc ⟨2025, 10, 1⟩ [] noNameDoc).isSome = true ∧
    (build_overview_rows ⟨2025, 10, 1⟩ [] [noNameDoc]).length = 1 := by
  refine ⟨rfl, rfl, rfl⟩

/-- Claim C9 (amended): the facts whose absence rejects a document are being
a JSON object and a non-empty ISIN (after strip/uppercase); any other
document — including one with no name — still contributes its row.  The
normalizer is the total function `filterMap` of the per-document step, so a
rejected document never aborts the rest: splicing any rejected document into
a collection leaves the normalized output of the rest unchanged. -/
theorem claim_C9_doc_isolation :
    (∀ (today : PyDate) (tm : List (String × String)) (docs : List JVal),
      build_overview_rows today tm docs = docs.filterMap (normalizeDoc today tm)) ∧
    (∀ (today : PyDate) (tm : List (String × String)) (d : JVal),
      normalizeDoc today tm d = none ↔
        (d.isObj = false ∨ pyUpper (pyStrip (pyStr (jgetD d "isin" (.jstr "")))) = "")) ∧
    (∀ (today : PyDate) (tm : List (String × String)) (pre : List JVal) (bad : JVal)
        (post : List JVal),
      normalizeDoc today tm bad = none →
      build_overview_rows today tm (pre ++ bad :: post) =
        build_overview_rows today tm pre ++ build_overview_rows today tm post) := by
  refine ⟨fun _ _ _ => rfl, ?_, ?_⟩
  · intro today tm d
    cases d with
    | jobj fs =>
      rw [normalizeDoc]
      dsimp only
      by_cases hisin : pyUpper (pyStrip (pyStr (jgetD (JVal.jobj fs) "isin" (.jstr "")))) = ""
      · simp [hisin, JVal.isObj]
      · simp [hisin, JVal.isObj]
    | null =>
      have h0 : normalizeDoc today tm JVal.null = none := rfl
      simp [h0, JVal.isObj]
    | jbool b =>
      have h0 : normalizeDoc today tm (JVal.jbool b) = none := rfl
      simp [h0, JVal.isObj]
    | jint n =>
      have h0 : normalizeDoc today tm (JVal.jint n) = none := rfl
      simp [h0, JVal.isObj]
    | jnum q =>
      have h0 : normalizeDoc today tm (JVal.jnum q) = none := rfl
      simp [h0, JVal.isObj]
    | jstr s =>
      have h0 : normalizeDoc today tm (JVal.jstr s) = none := rfl
      simp [h0, JVal.isObj]
    | jarr xs =>
      have h0 : normalizeDoc today tm (JVal.jarr xs) = none := rfl
      simp [h0, JVal.isObj]
  · intro today tm pre bad post hbad
    rw [build_overview_rows, build_overview_rows, build_overview_rows,
      List.filterMap_append, List.filterMap_cons, hbad]

theorem claim_C9_doc_isolation_witness :
    normalizeDoc ⟨2025, 10, 1⟩ [] JVal.null = none ∧
    build_overview_rows ⟨2025, 10, 1⟩ [] ([noNameDoc] ++ JVal.null :: [noNameDoc]) =
      build_overview_rows ⟨2025, 10, 1⟩ [] [noNameDoc] ++
        build_overview_rows ⟨2025, 10, 1⟩ [] [noNameDoc] :=
  ⟨rfl, claim_C9_doc_isolation.2.2 ⟨2025, 10, 1⟩ [] [noNameDoc] JVal.null [noNameDoc] rfl⟩

/-! ## Claim C4: fallback CAGR from the max-return text -/

theorem two_rpow_bound :
    2 < (2 : ℝ) ^ ((3652425 : ℝ) / 3650000) ∧
    (2 : ℝ) ^ ((3652425 : ℝ) / 3650000) < 2.001 := by
  constructor
  · have h1 : (1 : ℝ) < 3652425 / 3650000 := by norm_num
    have h2 := (Real.rpow_lt_rpow_left_iff (x := 2) (by norm_num)).mpr h1
    rwa [Real.rpow_one] at h2
  · have he : (3652425 : ℝ) / 3650000 = 1 + 2425 / 3650000 := by norm_num
    rw [he, Real.rpow_add (by norm_num : (0:ℝ) < 2), Real.rpow_one]
    have hrpow : (2 : ℝ) ^ ((2425 : ℝ) / 3650000) =
        Real.exp (Real.log 2 * (2425 / 3650000)) :=
      Real.rpow_def_of_pos (by norm_num) _
    rw [hrpow]
    have hlog : Real.log 2 < 0.6931471808 := Real.log_two_lt_d9
    have hlogpos : 0 < Real.log 2 := Real.log_pos (by norm_num)
    set y : ℝ := Real.log 2 * (2425 / 3650000) with hy
    have hypos : 0 < y := by positivity
    have hybound : y < 0.00046054 := by
      rw [hy]
      nlinarith
    have hexp : Real.exp y ≤ 1 / (1 - y) := by
      have h2 : 1 - y ≤ Real.exp (-y) := by
        have := Real.add_one_le_exp (-y)
        linarith
      rw [Real.exp_neg] at h2
      have hexppos : 0 < Real.exp y := Real.exp_pos y
      have h4 : (1 - y) * Real.exp y ≤ 1 := by
        calc (1 - y) * Real.exp y ≤ (Real.exp y)⁻¹ * Real.exp y := by nlinarith
        _ = 1 := inv_mul_cancel₀ (ne_of_gt hexppos)
      rw [le_div_iff₀ (by linarith : (0:ℝ) < 1 - y)]
      linarith
    have hmono : 1 / (1 - y) ≤ 1 / (1 - 0.00046054) := by
      apply one_div_le_one_div_of_le
      · norm_num
      · linarith
    have hfin : Real.exp y ≤ 1 / (1 - 0.00046054) := le_trans hexp hmono
    nlinarith

theorem fallback_cagr_of_missing_pct (mt : MetaTexts) (today : PyDate)
    (h : parse_percent_text mt.max_return_text = none) :
    compute_cagr_from_max_return (some mt) today = none := by
  rw [compute_cagr_from_max_return, h]

theorem fallback_cagr_of_missing_date (mt : MetaTexts) (today : PyDate)
    (h : parse_french_date mt.launch_date_text = none) :
    compute_cagr_from_max_return (some mt) today = none := by
  rw [compute_cagr_from_max_return, h]
  cases parse_percent_text mt.max_return_text <;> rfl

theorem fallback_cagr_parsed (mt : MetaTexts) (today : PyDate) (p : ℚ) (d : PyDate)
    (hp : parse_percent_text mt.max_return_text = some p)
    (hd : parse_french_date mt.launch_date_text = some d) :
    ((toOrdinal today : ℤ) - (toOrdinal d : ℤ) ≤ 0 →
      compute_cagr_from_max_return (some mt) today = none) ∧
    (1 + p / 100 ≤ 0 → compute_cagr_from_max_return (some mt) today = none) ∧
    (0 < (toOrdinal today : ℤ) - (toOrdinal d : ℤ) → 0 < 1 + p / 100 →
      compute_cagr_from_max_return (some mt) today =
        some ((((1 + p / 100 : ℚ) : ℝ) ^
          ((1 : ℝ) /
            ((((((toOrdinal today : ℤ) - (toOrdinal d : ℤ) : ℤ) : ℚ) / (365.2425 : ℚ) : ℚ)) : ℝ)) -
          1) * 100)) := by
  refine ⟨?_, ?_, ?_⟩
  · intro hdays
    rw [compute_cagr_from_max_return, hp, hd]
    dsimp only
    rw [if_pos hdays]
  · intro hg
    rw [compute_cagr_from_max_return, hp, hd]
    dsimp only
    by_cases hdays : (toOrdinal today : ℤ) - (toOrdinal d : ℤ) ≤ 0
    · rw [if_pos hdays]
    · rw [if_neg hdays, if_pos hg]
  · intro hdays hg
    rw [compute_cagr_from_max_return, hp, hd]
    dsimp only
    rw [if_neg (by omega : ¬ ((toOrdinal today : ℤ) - (toOrdinal d : ℤ) ≤ 0)),
      if_neg (not_le.mpr hg)]

/-- Claim C4: the fallback estimator returns absent when the max-return
percentage or the launch date fails to parse, when no day has elapsed, or
when the total growth factor is ≤ 0; otherwise it returns
`((1+p/100)^(1/years) − 1)·100` with `years = days/365.2425`.  With a
max return of 100 % and a launch exactly one (non-leap) year before the
as-of date, the result lies strictly between 100 and 100.1. -/
theorem claim_C4_fallback_cagr :
    (∀ today : PyDate, compute_cagr_from_max_return none today = none) ∧
    (∀ (mt : MetaTexts) (today : PyDate),
      parse_percent_text mt.max_return_text = none →
        compute_cagr_from_max_return (some mt) today = none) ∧
    (∀ (mt : MetaTexts) (today : PyDate),
      parse_french_date mt.launch_date_text = none →
        compute_cagr_from_max_return (some mt) today = none) ∧
    (∀ (mt : MetaTexts) (today : PyDate) (p : ℚ) (d : PyDate),
      parse_percent_text mt.max_return_text = some p →
      parse_french_date mt.launch_date_text = some d →
      ((toOrdinal today : ℤ) - (toOrdinal d : ℤ) ≤ 0 →
        compute_cagr_from_max_return (some mt) today = none) ∧
      (1 + p / 100 ≤ 0 → compute_cagr_from_max_return (some mt) today = none) ∧
      (0 < (toOrdinal today : ℤ) - (toOrdinal d : ℤ) → 0 < 1 + p / 100 →
        compute_cagr_from_max_return (some mt) today =
          some ((((1 + p / 100 : ℚ) : ℝ) ^
            ((1 : ℝ) /
              ((((((toOrdinal today : ℤ) - (toOrdinal d : ℤ) : ℤ) : ℚ) / (365.2425 : ℚ) : ℚ)) : ℝ)) -
            1) * 100))) ∧
    (∃ c : ℝ,
      compute_cagr_from_max_return
          (some ⟨some "+100 %", some "15 juin 2022"⟩) ⟨2023, 6, 15⟩ = some c ∧
      100 < c ∧ c < 100.1) := by
  refine ⟨fun _ => rfl, fallback_cagr_of_missing_pct, fallback_cagr_of_missing_date,
    fallback_cagr_parsed, ?_⟩
  have hp0 : parse_percent_text (some "+100 %") =
      some (numMatchVal ⟨false, ['1', '0', '0'], []⟩) := rfl
  have hval : numMatchVal ⟨false, ['1', '0', '0'], []⟩ = 100 := by
    have hc : (charsToNat ['1', '0', '0']) = 100 := by decide
    simp [numMatchVal, hc, charsToNat]
  have hp : parse_percent_text (some "+100 %") = some 100 := by rw [hp0, hval]
  have hd : parse_french_date (some "15 juin 2022") = some ⟨2022, 6, 15⟩ := rfl
  have hdays : (toOrdinal ⟨2023, 6, 15⟩ : ℤ) - (toOrdinal (⟨2022, 6, 15⟩ : PyDate) : ℤ) =
      365 := by decide
  have h1 := (fallback_cagr_parsed ⟨some "+100 %", some "15 juin 2022"⟩ ⟨2023, 6, 15⟩
    100 ⟨2022, 6, 15⟩ hp hd).2.2 (by rw [hdays]; norm_num) (by norm_num)
  rw [hdays] at h1
  refine ⟨_, h1, ?_⟩
  have hgrow : (((1 + (100 : ℚ) / 100 : ℚ)) : ℝ) = 2 := by norm_num
  have hexp : ((1 : ℝ) / ((((365 : ℤ) : ℚ) / (365.2425 : ℚ) : ℚ) : ℝ)) =
      (3652425 : ℝ) / 3650000 := by
    push_cast
    norm_num
  rw [hgrow, hexp]
  obtain ⟨hlo, hhi⟩ := two_rpow_bound
  constructor
  · nlinarith
  · nlinarith

theorem claim_C4_fallback_cagr_witness :
    parse_percent_text (none : Option String) = none ∧
    compute_cagr_from_max_return (some ⟨none, none⟩) ⟨2025, 1, 1⟩ = none :=
  ⟨rfl, claim_C4_fallback_cagr.2.1 ⟨none, none⟩ ⟨2025, 1, 1⟩ rfl⟩

/-! ## C7 support: digit strings and their numeric values -/

theorem charsToNat_shift (ys : List Char) :
    ∀ a : ℕ, List.foldl (fun b c => 10 * b + (c.toNat - 48)) a ys =
      a * 10 ^ ys.length + charsToNat ys := by
  induction ys with
  | nil => intro a; simp [charsToNat]
  | cons c t ih =>
    intro a
    have h1 := ih (10 * a + (c.toNat - 48))
    have h2 := ih (c.toNat - 48)
    simp only [List.foldl_cons, List.length_cons]
    rw [h1]
    have h3 : charsToNat (c :: t) = (c.toNat - 48) * 10 ^ t.length + charsToNat t := by
      simp only [charsToNat, List.foldl_cons]
      have := ih (10 * 0 + (c.toNat - 48))
      simpa using this
    rw [h3]
    ring

theorem charsToNat_append (xs ys : List Char) :
    charsToNat (xs ++ ys) = charsToNat xs * 10 ^ ys.length + charsToNat ys := by
  simp only [charsToNat, List.foldl_append]
  exact charsToNat_shift ys _

theorem charsToNat_replicate_zero (k : ℕ) :
    charsToNat (List.replicate k '0') = 0 := by
  induction k with
  | zero => simp [charsToNat]
  | succ j ih =>
    have h : List.replicate (j + 1) '0' = List.replicate j '0' ++ ['0'] := by
      rw [List.replicate_succ']
    rw [h, charsToNat_append, ih]
    simp [charsToNat]

theorem charsToNat_prefix_zeros (k : ℕ) (xs : List Char) :
    charsToNat (List.replicate k '0' ++ xs) = charsToNat xs := by
  rw [charsToNat_append, charsToNat_replicate_zero]
  simp

theorem charsToNat_suffix_zeros (xs : List Char) (k : ℕ) :
    charsToNat (xs ++ List.replicate k '0') = charsToNat xs * 10 ^ k := by
  rw [charsToNat_append, charsToNat_replicate_zero, List.length_replicate]
  simp

theorem isAsciiDigit_digitChar (d : ℕ) (h : d < 10) :
    isAsciiDigit (digitChar d) = true := by
  interval_cases d <;> decide

theorem toNat_digitChar (d : ℕ) (h : d < 10) : (digitChar d).toNat - 48 = d := by
  interval_cases d <;> decide

theorem natDigitsAux_digits (fuel : ℕ) :
    ∀ n c, c ∈ natDigitsAux fuel n → isAsciiDigit c = true := by
  induction fuel with
  | zero => intro n c hc; simp [natDigitsAux] at hc
  | succ f ih =>
    intro n c hc
    match n with
    | 0 => simp [natDigitsAux] at hc
    | m + 1 =>
      rw [show natDigitsAux (f + 1) (m + 1) =
        digitChar ((m + 1) % 10) :: natDigitsAux f ((m + 1) / 10) from rfl] at hc
      rcases List.mem_cons.mp hc with h1 | h1
      · subst h1
        exact isAsciiDigit_digitChar _ (Nat.mod_lt _ (by norm_num))
      · exact ih _ _ h1

theorem charsToNat_natDigitsAux (fuel : ℕ) :
    ∀ n, n ≤ fuel → charsToNat (natDigitsAux fuel n).reverse = n := by
  induction fuel with
  | zero =>
    intro n hn
    interval_cases n
    simp [natDigitsAux, charsToNat]
  | succ f ih =>
    intro n hn
    match n with
    | 0 => rfl
    | m + 1 =>
      rw [show natDigitsAux (f + 1) (m + 1) =
        digitChar ((m + 1) % 10) :: natDigitsAux f ((m + 1) / 10) from rfl,
        List.reverse_cons, charsToNat_append]
      have hdiv : (m + 1) / 10 ≤ f := by
        have := Nat.div_lt_self (Nat.succ_pos m) (by norm_num : 1 < 10)
        omega
      rw [ih _ hdiv]
      simp only [charsToNat, List.foldl_cons, List.foldl_nil, List.length_cons,
        List.length_nil]
      rw [toNat_digitChar _ (Nat.mod_lt _ (by norm_num))]
      have := Nat.div_add_mod (m + 1) 10
      norm_num
      omega

theorem natDigitsAux_length_le (fuel : ℕ) :
    ∀ n k, n < 10 ^ k → (natDigitsAux fuel n).length ≤ k := by
  induction fuel with
  | zero => intro n k _; simp [natDigitsAux]
  | succ f ih =>
    intro n k hk
    match n with
    | 0 => simp [natDigitsAux]
    | m + 1 =>
      rw [show natDigitsAux (f + 1) (m + 1) =
        digitChar ((m + 1) % 10) :: natDigitsAux f ((m + 1) / 10) from rfl]
      match k with
      | 0 => simp at hk
      | j + 1 =>
        have hdiv : (m + 1) / 10 < 10 ^ j := by
          rw [Nat.div_lt_iff_lt_mul (by norm_num : 0 < 10)]
          calc m + 1 < 10 ^ (j + 1) := hk
          _ = 10 ^ j * 10 := by ring
        have := ih ((m + 1) / 10) j hdiv
        simp only [List.length_cons]
        omega

theorem natDigitsBE_ne_nil (n : ℕ) : natDigitsBE n ≠ [] := by
  by_cases h : n = 0
  · subst h; decide
  · rw [natDigitsBE, if_neg h]
    match n, h with
    | m + 1, _ =>
      rw [show natDigitsAux (m + 1) (m + 1) =
        digitChar ((m + 1) % 10) :: natDigitsAux m ((m + 1) / 10) from rfl]
      simp

theorem charsToNat_natDigitsBE (n : ℕ) : charsToNat (natDigitsBE n) = n := by
  by_cases h : n = 0
  · subst h; decide
  · rw [natDigitsBE, if_neg h]
    exact charsToNat_natDigitsAux n n le_rfl

theorem natDigitsBE_digits (n : ℕ) (c : Char) (hc : c ∈ natDigitsBE n) :
    isAsciiDigit c = true := by
  by_cases h : n = 0
  · subst h
    have h0 : natDigitsBE 0 = [Char.ofNat 48] := rfl
    rw [h0] at hc
    rcases List.mem_singleton.mp hc with rfl
    decide
  · rw [natDigitsBE, if_neg h] at hc
    exact natDigitsAux_digits n n c (List.mem_reverse.mp hc)

theorem natDigitsBE_length_le (n k : ℕ) (h : n < 10 ^ k) (hk : 1 ≤ k) :
    (natDigitsBE n).length ≤ k := by
  by_cases h0 : n = 0
  · subst h0; simpa [natDigitsBE] using hk
  · rw [natDigitsBE, if_neg h0, List.length_reverse]
    exact natDigitsAux_length_le n n k h

/-! ## C7 support: rstrip, takeWhile and substring-removal identities -/

theorem dropWhile_eq_self_of_forall (p : Char → Bool) (l : List Char)
    (h : ∀ c ∈ l, p c = false) : l.dropWhile p = l := by
  cases l with
  | nil => rfl
  | cons c t =>
    rw [List.dropWhile_cons, h c (List.mem_cons_self c t)]
    simp

theorem takeWhile_eq_self_of_forall (p : Char → Bool) (l : List Char)
    (h : ∀ c ∈ l, p c = true) : l.takeWhile p = l := by
  induction l with
  | nil => rfl
  | cons c t ih =>
    rw [List.takeWhile_cons, h c (List.mem_cons_self c t)]
    simp only [if_true]
    rw [ih fun d hd => h d (List.mem_cons_of_mem c hd)]

theorem dropWhile_eq_nil_of_forall (p : Char → Bool) (l : List Char)
    (h : ∀ c ∈ l, p c = true) : l.dropWhile p = [] := by
  induction l with
  | nil => rfl
  | cons c t ih =>
    rw [List.dropWhile_cons, h c (List.mem_cons_self c t)]
    simp only [if_true]
    exact ih fun d hd => h d (List.mem_cons_of_mem c hd)

theorem dropTrailing_append (p : Char → Bool) (xs ys : List Char) :
    dropTrailing p (xs ++ ys) =
      if dropTrailing p ys = [] then dropTrailing p xs
      else xs ++ dropTrailing p ys := by
  unfold dropTrailing
  rw [List.reverse_append, List.dropWhile_append]
  by_cases h : List.dropWhile p ys.reverse = []
  · simp [h]
  · simp only [List.isEmpty_iff, h, if_false, List.reverse_append, List.reverse_reverse]
    rw [if_neg]
    intro hc
    exact h (by simpa using congrArg List.reverse hc)

theorem dropTrailing_mem (p : Char → Bool) (l : List Char) (c : Char)
    (h : c ∈ dropTrailing p l) : c ∈ l := by
  unfold dropTrailing at h
  rw [List.mem_reverse] at h
  have := (List.dropWhile_sublist p).subset h
  exact List.mem_reverse.mp this

theorem dropTrailing_eq_self_of_forall (p : Char → Bool) (l : List Char)
    (h : ∀ c ∈ l, p c = false) : dropTrailing p l = l := by
  unfold dropTrailing
  rw [dropWhile_eq_self_of_forall p l.reverse fun c hc => h c (List.mem_reverse.mp hc)]
  exact List.reverse_reverse l

theorem dropTrailing_decomp (z : Char) (l : List Char) :
    ∃ k, l = dropTrailing (fun c => c = z) l ++ List.replicate k z := by
  refine ⟨(l.reverse.takeWhile (fun c => c = z)).length, ?_⟩
  unfold dropTrailing
  have hsplit := @List.takeWhile_append_dropWhile _ (fun c => decide (c = z)) l.reverse
  have htake : l.reverse.takeWhile (fun c => decide (c = z)) =
      List.replicate (l.reverse.takeWhile (fun c => decide (c = z))).length z := by
    apply List.eq_replicate_of_mem
    intro b hb
    have := List.mem_takeWhile_imp hb
    simpa using this
  calc l = l.reverse.reverse := (List.reverse_reverse l).symm
  _ = (l.reverse.takeWhile (fun c => decide (c = z)) ++
      l.reverse.dropWhile (fun c => decide (c = z))).reverse := by rw [hsplit]
  _ = (l.reverse.dropWhile (fun c => decide (c = z))).reverse ++
      (l.reverse.takeWhile (fun c => decide (c = z))).reverse := by
        rw [List.reverse_append]
  _ = _ := by
        rw [htake]
        simp

theorem spanDigits_exact (xs ys : List Char)
    (h1 : ∀ c ∈ xs, isAsciiDigit c = true)
    (h2 : ∀ c t, ys = c :: t → isAsciiDigit c = false) :
    spanDigits (xs ++ ys) = (xs, ys) := by
  unfold spanDigits
  rw [Prod.mk.injEq]
  constructor
  · rw [List.takeWhile_append]
    rw [takeWhile_eq_self_of_forall _ _ h1]
    simp only [if_pos rfl]
    cases ys with
    | nil => simp
    | cons c t => rw [List.takeWhile_cons, h2 c t rfl]; simp
  · rw [List.dropWhile_append]
    rw [dropWhile_eq_nil_of_forall _ _ h1]
    simp only [List.isEmpty_nil, if_true]
    cases ys with
    | nil => rfl
    | cons c t => rw [List.dropWhile_cons, h2 c t rfl]; simp

theorem removeSubAux_not_head (p0 : Char) (ps : List Char) :
    ∀ (fuel : ℕ) (l : List Char), p0 ∉ l → removeSubAux (p0 :: ps) fuel l = l := by
  intro fuel
  induction fuel with
  | zero => intro l _; cases l <;> rfl
  | succ f ih =>
    intro l hl
    cases l with
    | nil => rfl
    | cons c t =>
      rw [removeSubAux, if_neg, ih t fun h => hl (List.mem_cons_of_mem c h)]
      rintro ⟨-, hpre⟩
      have hp : p0 :: ps <+: c :: t := List.isPrefixOf_iff_prefix.mp hpre
      rcases List.cons_prefix_cons.mp hp with ⟨rfl, -⟩
      exact hl (List.mem_cons_self _ _)

theorem removeSub_not_head (p0 : Char) (ps : List Char) (l : List Char)
    (h : p0 ∉ l) : removeSub (p0 :: ps) l = l :=
  removeSubAux_not_head p0 ps l.length l h

theorem collapseSpacesAux_eq_self (l : List Char)
    (h : ∀ c ∈ l, isPySpace c = false) : ∀ b, collapseSpacesAux b l = l := by
  induction l with
  | nil => intro b; rfl
  | cons c t ih =>
    intro b
    rw [collapseSpacesAux, if_neg]
    · rw [ih (fun d hd => h d (List.mem_cons_of_mem c hd)) false]
    · rw [h c (List.mem_cons_self c t)]; exact Bool.false_ne_true

theorem map_eq_self_of_forall (f : Char → Char) (l : List Char)
    (h : ∀ c ∈ l, f c = c) : l.map f = l := by
  induction l with
  | nil => rfl
  | cons c t ih =>
    rw [List.map_cons, h c (List.mem_cons_self c t),
      ih fun d hd => h d (List.mem_cons_of_mem c hd)]

theorem clean_spaces_eq_self (l : List Char)
    (h : ∀ c ∈ l, isPySpace c = false ∧ c ≠ '\xa0') : clean_spaces l = l := by
  unfold clean_spaces collapseSpaces stripEnds
  rw [map_eq_self_of_forall _ _ fun c hc => if_neg (h c hc).2]
  rw [collapseSpacesAux_eq_self l (fun c hc => (h c hc).1) false]
  rw [dropWhile_eq_self_of_forall _ _ fun c hc => (h c hc).1]
  rw [dropWhile_eq_self_of_forall _ _ fun c hc => (h c (List.mem_reverse.mp hc)).1]
  exact List.reverse_reverse l

/-! ## C7 support: the shape of a formatted number -/

theorem fracChars_digits (m : ℤ) (n : ℕ) (c : Char) (hc : c ∈ fracChars m n) :
    isAsciiDigit c = true := by
  have hm := dropTrailing_mem _ _ _ hc
  rcases List.mem_append.mp hm with h | h
  · rcases List.eq_of_mem_replicate h with rfl
    decide
  · exact natDigitsBE_digits _ c h

theorem ne_of_digit (c x : Char) (h : isAsciiDigit c = true)
    (hx : isAsciiDigit x = false) : c ≠ x := by
  intro he
  rw [he] at h
  rw [h] at hx
  simp at hx

theorem decimalChars_spec (m : ℤ) (n : ℕ) (hn : 1 ≤ n) :
    decimalChars m n =
      (if m < 0 then ['-'] else []) ++ natDigitsBE (m.natAbs / 10 ^ n) ++
        (if fracChars m n = [] then [] else ',' :: fracChars m n) := by
  have hne : ¬ n = 0 := by omega
  have hdec : decimalChars m n =
      (dropTrailing (fun c => c = '.')
        (dropTrailing (fun c => c = '0')
          ((if m < 0 then ['-'] else []) ++ natDigitsBE (m.natAbs / 10 ^ n) ++
            ('.' :: (List.replicate (n - (natDigitsBE (m.natAbs % 10 ^ n)).length) '0' ++
              natDigitsBE (m.natAbs % 10 ^ n)))))).map
        (fun c => if c = '.' then ',' else c) := by
    simp only [decimalChars, if_neg hne]
  rw [hdec]
  set sign := (if m < 0 then ['-'] else ([] : List Char)) with hsgn
  set D := natDigitsBE (m.natAbs / 10 ^ n) with hDdef
  set P := List.replicate (n - (natDigitsBE (m.natAbs % 10 ^ n)).length) '0' ++
      natDigitsBE (m.natAbs % 10 ^ n) with hPdef
  have hFdef : fracChars m n = dropTrailing (fun c => decide (c = '0')) P := rfl
  have hsignmem : ∀ c ∈ sign, c = '-' := by
    rw [hsgn]
    split <;> simp
  have hnodotsd : ∀ c ∈ sign ++ D, decide (c = '.') = false := by
    intro c hc
    rcases List.mem_append.mp hc with h | h
    · rcases hsignmem c h with rfl
      decide
    · exact decide_eq_false (ne_of_digit c '.' (natDigitsBE_digits _ c h) (by decide))
  have hassoc : sign ++ D ++ ('.' :: P) = (sign ++ D ++ ['.']) ++ P := by
    simp
  rw [hassoc, dropTrailing_append, ← hFdef]
  by_cases hF : fracChars m n = []
  · rw [if_pos hF, if_pos hF, List.append_nil]
    rw [dropTrailing_append]
    rw [show dropTrailing (fun c => decide (c = '0')) ['.'] = ['.'] from by decide]
    rw [if_neg (show ¬ (['.'] : List Char) = [] from by decide)]
    rw [dropTrailing_append]
    rw [show dropTrailing (fun c => decide (c = '.')) ['.'] = [] from by decide]
    rw [if_pos rfl]
    rw [dropTrailing_eq_self_of_forall _ _ hnodotsd]
    exact map_eq_self_of_forall _ _ fun c hc =>
      if_neg (of_decide_eq_false (hnodotsd c hc))
  · rw [if_neg hF, if_neg hF]
    have hFdigits : ∀ c ∈ fracChars m n, decide (c = '.') = false := fun c hc =>
      decide_eq_false (ne_of_digit c '.' (fracChars_digits m n c hc) (by decide))
    rw [dropTrailing_append, dropTrailing_eq_self_of_forall _ _ hFdigits, if_neg hF]
    rw [List.map_append, List.map_append]
    rw [map_eq_self_of_forall _ _ (fun c hc =>
      if_neg (of_decide_eq_false (hnodotsd c hc)))]
    rw [map_eq_self_of_forall _ _ (fun c hc =>
      if_neg (of_decide_eq_false (hFdigits c hc)))]
    rw [show List.map (fun c => if c = '.' then ',' else c) ['.'] = [','] from by decide]
    simp

theorem decimal_value (m : ℤ) (n : ℕ) (hn : 1 ≤ n) :
    ((charsToNat (natDigitsBE (m.natAbs / 10 ^ n)) : ℚ) +
      (charsToNat (fracChars m n) : ℚ) / 10 ^ (fracChars m n).length) =
    (m.natAbs : ℚ) / 10 ^ n := by
  have hflt : m.natAbs % 10 ^ n < 10 ^ n := Nat.mod_lt _ (by positivity)
  have hlenD : (natDigitsBE (m.natAbs % 10 ^ n)).length ≤ n :=
    natDigitsBE_length_le _ n hflt hn
  obtain ⟨k, hk⟩ := dropTrailing_decomp '0'
    (List.replicate (n - (natDigitsBE (m.natAbs % 10 ^ n)).length) '0' ++
      natDigitsBE (m.natAbs % 10 ^ n))
  have hPF : List.replicate (n - (natDigitsBE (m.natAbs % 10 ^ n)).length) '0' ++
      natDigitsBE (m.natAbs % 10 ^ n) = fracChars m n ++ List.replicate k '0' := hk
  have hlen : (fracChars m n).length + k = n := by
    have h := congrArg List.length hPF
    rw [List.length_append, List.length_append, List.length_replicate,
      List.length_replicate] at h
    omega
  have hval : charsToNat (fracChars m n) * 10 ^ k = m.natAbs % 10 ^ n := by
    rw [← charsToNat_suffix_zeros, ← hPF, charsToNat_prefix_zeros, charsToNat_natDigitsBE]
  have hdm : 10 ^ n * (m.natAbs / 10 ^ n) + m.natAbs % 10 ^ n = m.natAbs :=
    Nat.div_add_mod m.natAbs (10 ^ n)
  rw [← hval] at hdm
  have hnat : m.natAbs = 10 ^ n * (m.natAbs / 10 ^ n) + charsToNat (fracChars m n) * 10 ^ k :=
    hdm.symm
  rw [charsToNat_natDigitsBE]
  have hcast : (m.natAbs : ℚ) =
      10 ^ n * (m.natAbs / 10 ^ n : ℕ) + (charsToNat (fracChars m n) : ℚ) * 10 ^ k := by
    exact_mod_cast hnat
  rw [hcast]
  have hpow : (10:ℚ) ^ n = 10 ^ (fracChars m n).length * 10 ^ k := by
    rw [← pow_add, hlen]
  rw [hpow]
  have h1 : (10:ℚ) ^ (fracChars m n).length ≠ 0 := by positivity
  have h2 : (10:ℚ) ^ k ≠ 0 := by positivity
  field_simp
  ring

/-! ## C7 support: the scanners on formatted numbers -/

theorem isPySpace_eq_false_of_digit (c : Char) (h : isAsciiDigit c = true) :
    isPySpace c = false := by
  unfold isPySpace
  refine decide_eq_false ?_
  rintro (rfl | rfl | rfl | rfl | rfl | rfl) <;> exact absurd h (by decide)

theorem fmtChars_class (m : ℤ) (n : ℕ) (hn : 1 ≤ n) :
    ∀ c ∈ decimalChars m n, c = '-' ∨ c = ',' ∨ isAsciiDigit c = true := by
  intro c hc
  rw [decimalChars_spec m n hn] at hc
  rcases List.mem_append.mp hc with h | h
  · rcases List.mem_append.mp h with h1 | h1
    · left
      by_cases hm : m < 0
      · rw [if_pos hm] at h1
        simpa using h1
      · rw [if_neg hm] at h1
        simp at h1
    · right; right; exact natDigitsBE_digits _ c h1
  · right
    by_cases hFe : fracChars m n = []
    · rw [if_pos hFe] at h
      simp at h
    · rw [if_neg hFe] at h
      rcases List.mem_cons.mp h with rfl | h2
      · left; rfl
      · right; exact fracChars_digits m n c h2

theorem matchNumberAt_of_ne_dash (seps : List Char) (c : Char) (t : List Char)
    (h : c ≠ '-') :
    matchNumberAt seps (c :: t) = matchNumberCore seps false (c :: t) := by
  unfold matchNumberAt
  split
  · rename_i t2 heq
    injection heq with h1 _
    exact absurd h1 h
  · rfl

theorem matchNumberCore_nosep (seps : List Char) (neg : Bool) (d : Char) (D' : List Char)
    (hDd : ∀ c ∈ d :: D', isAsciiDigit c = true) :
    matchNumberCore seps neg (d :: D') = some ⟨neg, d :: D', []⟩ := by
  have hspan : spanDigits (d :: D') = (d :: D', []) := by
    have := spanDigits_exact (d :: D') [] hDd (fun c t hct => by simp at hct)
    simpa using this
  unfold matchNumberCore
  rw [hspan]

theorem matchNumberCore_sep (neg : Bool) (d : Char) (D' F : List Char)
    (hDd : ∀ c ∈ d :: D', isAsciiDigit c = true)
    (hFd : ∀ c ∈ F, isAsciiDigit c = true) :
    matchNumberCore ['.', ','] neg ((d :: D') ++ ',' :: F) = some ⟨neg, d :: D', F⟩ := by
  have hspan : spanDigits ((d :: D') ++ ',' :: F) = (d :: D', ',' :: F) :=
    spanDigits_exact (d :: D') (',' :: F) hDd
      (fun c t hct => by rw [List.cons.injEq] at hct; rw [← hct.1]; decide)
  unfold matchNumberCore
  rw [hspan]
  cases F with
  | nil =>
    dsimp only
    rw [if_pos (show ',' ∈ ['.', ','] from by decide)]
    rfl
  | cons f F' =>
    have hspan2 : spanDigits (f :: F') = (f :: F', []) := by
      have := spanDigits_exact (f :: F') [] hFd (fun c t hct => by simp at hct)
      simpa using this
    dsimp only
    rw [if_pos (show ',' ∈ ['.', ','] from by decide), hspan2]

theorem searchNumber_cons (seps : List Char) (c : Char) (t : List Char) (M : NumMatch)
    (h : matchNumberAt seps (c :: t) = some M) :
    searchNumber seps (c :: t) = some M := by
  unfold searchNumber
  rw [h]

theorem searchNumber_formatted_neg (D F : List Char) (hD : D ≠ [])
    (hDd : ∀ c ∈ D, isAsciiDigit c = true) (hFd : ∀ c ∈ F, isAsciiDigit c = true) :
    searchNumber ['.', ','] ('-' :: (D ++ (if F = [] then [] else ',' :: F))) =
      some ⟨true, D, F⟩ := by
  obtain ⟨d, D', rfl⟩ := List.exists_cons_of_ne_nil hD
  apply searchNumber_cons
  rw [show matchNumberAt ['.', ','] ('-' :: (d :: D' ++ (if F = [] then [] else ',' :: F))) =
    matchNumberCore ['.', ','] true (d :: D' ++ (if F = [] then [] else ',' :: F)) from rfl]
  cases F with
  | nil =>
    rw [if_pos rfl, List.append_nil]
    exact matchNumberCore_nosep _ _ _ _ hDd
  | cons f F' =>
    rw [if_neg (show ¬(f :: F' = []) from by simp)]
    exact matchNumberCore_sep true d D' (f :: F') hDd hFd

theorem searchNumber_formatted_pos (D F : List Char) (hD : D ≠ [])
    (hDd : ∀ c ∈ D, isAsciiDigit c = true) (hFd : ∀ c ∈ F, isAsciiDigit c = true) :
    searchNumber ['.', ','] (D ++ (if F = [] then [] else ',' :: F)) =
      some ⟨false, D, F⟩ := by
  obtain ⟨d, D', rfl⟩ := List.exists_cons_of_ne_nil hD
  have hdd : d ≠ '-' := ne_of_digit d '-' (hDd d (List.mem_cons_self d D')) (by decide)
  rw [List.cons_append]
  apply searchNumber_cons
  rw [matchNumberAt_of_ne_dash _ _ _ hdd]
  rw [← List.cons_append]
  cases F with
  | nil =>
    rw [if_pos rfl, List.append_nil]
    exact matchNumberCore_nosep _ _ _ _ hDd
  | cons f F' =>
    rw [if_neg (show ¬(f :: F' = []) from by simp)]
    exact matchNumberCore_sep false d D' (f :: F') hDd hFd

theorem parse_percent_decimalChars (m : ℤ) (n : ℕ) (hn : 1 ≤ n) :
    parse_percent (some ((decimalChars m n).asString)) = some ((m : ℚ) / 10 ^ n) := by
  have hclass := fmtChars_class m n hn
  have hchars : ∀ c ∈ decimalChars m n, isPySpace c = false ∧ c ≠ '\xa0' := by
    intro c hc
    rcases hclass c hc with rfl | rfl | hd
    · exact ⟨by decide, by decide⟩
    · exact ⟨by decide, by decide⟩
    · exact ⟨isPySpace_eq_false_of_digit c hd, ne_of_digit c _ hd (by decide)⟩
  have hnotmem : ∀ x : Char, isAsciiDigit x = false → x ≠ '-' → x ≠ ',' →
      x ∉ decimalChars m n := by
    intro x hx h1 h2 hmem
    rcases hclass x hmem with rfl | rfl | hd
    · exact h1 rfl
    · exact h2 rfl
    · rw [hd] at hx; simp at hx
  have hne : decimalChars m n ≠ [] := by
    rw [decimalChars_spec m n hn]
    intro hcontra
    rcases List.append_eq_nil.mp hcontra with ⟨h1, -⟩
    rcases List.append_eq_nil.mp h1 with ⟨-, h2⟩
    exact natDigitsBE_ne_nil _ h2
  have hsne : ¬ ((decimalChars m n).asString = "") := by
    intro h
    have h2 := congrArg String.data h
    exact hne h2
  simp only [parse_percent, if_neg hsne]
  rw [show String.data ((decimalChars m n).asString) = decimalChars m n from rfl]
  rw [clean_spaces_eq_self _ hchars]
  rw [removeSub_not_head '%' [] _ (hnotmem '%' (by decide) (by decide) (by decide))]
  rw [removeSub_not_head 'p' ['.', 'a', '.'] _ (hnotmem 'p' (by decide) (by decide) (by decide))]
  rw [removeSub_not_head '+' [] _ (hnotmem '+' (by decide) (by decide) (by decide))]
  rw [decimalChars_spec m n hn]
  have hDne : natDigitsBE (m.natAbs / 10 ^ n) ≠ [] := natDigitsBE_ne_nil _
  have hDd : ∀ c ∈ natDigitsBE (m.natAbs / 10 ^ n), isAsciiDigit c = true :=
    fun c hc => natDigitsBE_digits _ c hc
  have hFd : ∀ c ∈ fracChars m n, isAsciiDigit c = true :=
    fun c hc => fracChars_digits m n c hc
  have hval := decimal_value m n hn
  by_cases hm : m < 0
  · rw [if_pos hm]
    rw [show (['-'] ++ natDigitsBE (m.natAbs / 10 ^ n) ++
        (if fracChars m n = [] then [] else ',' :: fracChars m n)) =
      '-' :: (natDigitsBE (m.natAbs / 10 ^ n) ++
        (if fracChars m n = [] then [] else ',' :: fracChars m n)) from by simp]
    rw [searchNumber_formatted_neg _ _ hDne hDd hFd, Option.map_some']
    simp only [numMatchVal, if_pos rfl]
    rw [hval, Int.cast_natAbs, abs_of_neg hm, if_pos trivial]
    congr 1
    push_cast
    ring
  · rw [if_neg hm, List.nil_append]
    rw [searchNumber_formatted_pos _ _ hDne hDd hFd, Option.map_some']
    simp only [numMatchVal, if_neg (show ¬(false = true) from by simp)]
    rw [hval, Int.cast_natAbs, abs_of_nonneg (not_lt.mp hm), one_mul]

/-! ## C7 support: the AUM parser on formatted numbers -/

theorem filter_eq_self_of_forall (p : Char → Bool) (l : List Char)
    (h : ∀ c ∈ l, p c = true) : l.filter p = l := by
  induction l with
  | nil => rfl
  | cons c t ih =>
    rw [List.filter_cons, if_pos (h c (List.mem_cons_self c t)),
      ih fun d hd => h d (List.mem_cons_of_mem c hd)]

theorem isAumGroupChar_of_digit (c : Char) (h : isAsciiDigit c = true) :
    isAumGroupChar c = true := by
  simp [isAumGroupChar, h]

theorem searchAumGroup_digit (c : Char) (t : List Char) (h : isAsciiDigit c = true) :
    searchAumGroup (c :: t) = some ((c :: t).takeWhile isAumGroupChar,
      (((c :: t).dropWhile isAumGroupChar).takeWhile isAsciiAlpha)) := by
  unfold searchAumGroup
  rw [if_pos h]

theorem pyFloatOfChars_formatted (D F : List Char) (hD : D ≠ [])
    (hDd : ∀ c ∈ D, isAsciiDigit c = true) (hFd : ∀ c ∈ F, isAsciiDigit c = true) :
    pyFloatOfChars (D ++ (if F = [] then [] else '.' :: F)) =
      some ((charsToNat D : ℚ) + (charsToNat F : ℚ) / 10 ^ F.length) := by
  obtain ⟨d, D', rfl⟩ := List.exists_cons_of_ne_nil hD
  have hdd : d ≠ '-' := ne_of_digit d '-' (hDd d (List.mem_cons_self d D')) (by decide)
  have hdp : d ≠ '+' := ne_of_digit d '+' (hDd d (List.mem_cons_self d D')) (by decide)
  rw [List.cons_append]
  simp only [pyFloatOfChars]
  split
  · rename_i t2 heq
    injection heq with h1 _
    exact absurd h1 hdd
  · rename_i t2 heq
    injection heq with h1 _
    exact absurd h1 hdp
  · rw [← List.cons_append]
    cases F with
    | nil =>
      rw [if_pos rfl, List.append_nil]
      have hspan : spanDigits (d :: D') = (d :: D', []) := by
        have := spanDigits_exact (d :: D') [] hDd (fun c t hct => by simp at hct)
        simpa using this
      rw [hspan]
      dsimp only
      rw [if_neg (show ¬(d :: D' = []) from by simp)]
      simp [charsToNat]
    | cons f F' =>
      rw [if_neg (show ¬(f :: F' = []) from by simp)]
      have hspan : spanDigits ((d :: D') ++ '.' :: f :: F') = (d :: D', '.' :: f :: F') :=
        spanDigits_exact (d :: D') ('.' :: f :: F') hDd
          (fun c t hct => by rw [List.cons.injEq] at hct; rw [← hct.1]; decide)
      rw [hspan]
      have hspan2 : spanDigits (f :: F') = (f :: F', []) := by
        have := spanDigits_exact (f :: F') [] hFd (fun c t hct => by simp at hct)
        simpa using this
      dsimp only
      split
      · rename_i heq
        exact absurd heq (by simp)
      · rename_i rest2 heq
        injection heq with h1 h2
        subst h2
        rw [hspan2]
        dsimp only
        rw [if_pos (show ([] : List Char) = [] ∧ (d :: D' ≠ [] ∨ f :: F' ≠ []) from
          ⟨rfl, Or.inl (by simp)⟩)]
        norm_num
      · rename_i hne1 hne2
        exact absurd rfl (hne2 (f :: F'))

set_option maxHeartbeats 1000000 in
theorem parse_aum_decimalChars (m : ℤ) (n : ℕ) (hn : 1 ≤ n) (hm : 0 ≤ m) :
    parse_aum_meur (some ((decimalChars m n).asString)) = some ((m : ℚ) / 10 ^ n) := by
  have hclass := fmtChars_class m n hn
  have hchars : ∀ c ∈ decimalChars m n, isPySpace c = false ∧ c ≠ '\xa0' := by
    intro c hc
    rcases hclass c hc with rfl | rfl | hd
    · exact ⟨by decide, by decide⟩
    · exact ⟨by decide, by decide⟩
    · exact ⟨isPySpace_eq_false_of_digit c hd, ne_of_digit c _ hd (by decide)⟩
  have hne : decimalChars m n ≠ [] := by
    rw [decimalChars_spec m n hn]
    intro hcontra
    rcases List.append_eq_nil.mp hcontra with ⟨h1, -⟩
    rcases List.append_eq_nil.mp h1 with ⟨-, h2⟩
    exact natDigitsBE_ne_nil _ h2
  have hsne : ¬ ((decimalChars m n).asString = "") := by
    intro h
    have h2 := congrArg String.data h
    exact hne h2
  have hmlt : ¬ m < 0 := not_lt.mpr hm
  have hDne : natDigitsBE (m.natAbs / 10 ^ n) ≠ [] := natDigitsBE_ne_nil _
  have hDd : ∀ c ∈ natDigitsBE (m.natAbs / 10 ^ n), isAsciiDigit c = true :=
    fun c hc => natDigitsBE_digits _ c hc
  have hFd : ∀ c ∈ fracChars m n, isAsciiDigit c = true :=
    fun c hc => fracChars_digits m n c hc
  have hval := decimal_value m n hn
  obtain ⟨d, D', hDeq⟩ := List.exists_cons_of_ne_nil hDne
  have htail : ∀ c ∈ (if fracChars m n = [] then [] else ',' :: fracChars m n),
      c = ',' ∨ isAsciiDigit c = true := by
    intro c hc
    by_cases hFe : fracChars m n = []
    · rw [if_pos hFe] at hc
      simp at hc
    · rw [if_neg hFe] at hc
      rcases List.mem_cons.mp hc with rfl | h2
      · exact Or.inl rfl
      · exact Or.inr (hFd c h2)
  have hall : ∀ c ∈ d :: (D' ++ (if fracChars m n = [] then [] else ',' :: fracChars m n)),
      c = ',' ∨ isAsciiDigit c = true := by
    intro c hc
    rcases List.mem_cons.mp hc with rfl | h2
    · exact Or.inr (hDd c (hDeq ▸ List.mem_cons_self c D'))
    · rcases List.mem_append.mp h2 with h3 | h3
      · exact Or.inr (hDd c (hDeq ▸ List.mem_cons_of_mem d h3))
      · exact htail c h3
  unfold parse_aum_meur
  dsimp only
  rw [if_neg hsne]
  rw [show String.data ((decimalChars m n).asString) = decimalChars m n from rfl]
  rw [clean_spaces_eq_self _ hchars]
  rw [decimalChars_spec m n hn, if_neg hmlt, List.nil_append, hDeq, List.cons_append]
  rw [searchAumGroup_digit d _ (hDd d (hDeq ▸ List.mem_cons_self d D'))]
  rw [takeWhile_eq_self_of_forall _ _ (fun c hc => by
    rcases hall c hc with rfl | hd
    · decide
    · exact isAumGroupChar_of_digit c hd)]
  rw [dropWhile_eq_nil_of_forall _ _ (fun c hc => by
    rcases hall c hc with rfl | hd
    · decide
    · exact isAumGroupChar_of_digit c hd)]
  dsimp only
  rw [filter_eq_self_of_forall _ _ (fun c hc => by
    rcases hall c hc with rfl | hd
    · decide
    · exact decide_eq_true (ne_of_digit c ' ' hd (by decide)))]
  rw [show (d :: (D' ++ (if fracChars m n = [] then [] else ',' :: fracChars m n))) =
    ((d :: D') ++ (if fracChars m n = [] then [] else ',' :: fracChars m n)) from by
      rw [List.cons_append]]
  rw [List.map_append]
  rw [map_eq_self_of_forall _ _ (fun c hc =>
    if_neg (ne_of_digit c ',' (hDd c (hDeq ▸ hc)) (by decide)))]
  rw [show List.map (fun c => if c = ',' then '.' else c)
      (if fracChars m n = [] then [] else ',' :: fracChars m n) =
    (if fracChars m n = [] then [] else '.' :: fracChars m n) from by
      by_cases hFe : fracChars m n = []
      · rw [if_pos hFe, if_pos hFe]
        rfl
      · rw [if_neg hFe, if_neg hFe, List.map_cons]
        rw [show (if (',' : Char) = ',' then '.' else ',') = '.' from by decide]
        rw [map_eq_self_of_forall _ _ (fun c hc =>
          if_neg (ne_of_digit c ',' (hFd c hc) (by decide)))]]
  rw [pyFloatOfChars_formatted (d :: D') (fracChars m n) (by simp)
    (fun c hc => hDd c (hDeq ▸ hc)) hFd]
  dsimp only
  rw [if_neg (by decide), if_neg (by decide)]
  rw [hDeq] at hval
  rw [hval, Int.cast_natAbs, abs_of_nonneg hm]

/-! ## C7: round-trip claim -/

theorem rheR_abs_le (x : ℝ) : |((roundHalfEvenR x : ℤ) : ℝ) - x| ≤ 1 / 2 := by
  have hf0 : 0 ≤ Int.fract x := Int.fract_nonneg x
  have hf1 : Int.fract x < 1 := Int.fract_lt_one x
  have hfr : Int.fract x = x - (⌊x⌋ : ℝ) := rfl
  unfold roundHalfEvenR
  split_ifs with h1 h2 h3
  · rw [abs_le]
    constructor <;> linarith
  · rw [abs_le]
    constructor <;> push_cast <;> linarith
  · have he : Int.fract x = 1 / 2 := le_antisymm (not_lt.mp h2) (not_lt.mp h1)
    rw [abs_le]
    constructor <;> linarith
  · have he : Int.fract x = 1 / 2 := le_antisymm (not_lt.mp h2) (not_lt.mp h1)
    rw [abs_le]
    constructor <;> push_cast <;> linarith

theorem rheR_nonneg (x : ℝ) (h : 0 ≤ x) : 0 ≤ roundHalfEvenR x := by
  have h0 : (0 : ℤ) ≤ ⌊x⌋ := Int.floor_nonneg.mpr h
  unfold roundHalfEvenR
  split_ifs <;> omega

/-- C7 (counterexample): formatting `-1` for an AUM field at three decimals
gives the text `-1`, but `parse_aum_meur` reads it back as `1`: the sign is
lost, so the recovered value is two whole units away from the original, far
outside any rounding precision. -/
theorem claim_C7_counterexample_negative_aum :
    fmt_number (-1 : ℝ) 3 = "-1" ∧
      parse_aum_meur (some (fmt_number (-1 : ℝ) 3)) = some 1 ∧
      ¬ |((1 : ℚ) : ℝ) - (-1 : ℝ)| ≤ 1 / (2 * 10 ^ 3) := by
  have hr : roundHalfEvenR ((-1 : ℝ) * 10 ^ 3) = -1000 := by
    rw [show ((-1 : ℝ) * 10 ^ 3) = ((-1000 : ℤ) : ℝ) from by norm_num]
    exact roundHalfEvenR_intCast (-1000)
  have h1 : fmt_number (-1 : ℝ) 3 = ((decimalChars (-1000) 3).asString) := by
    unfold fmt_number
    rw [hr]
  have h2 : (decimalChars (-1000) 3).asString = "-1" := by decide
  have hpf : pyFloatOfChars ['1'] = some 1 := by
    have h3 := pyFloatOfChars_formatted ['1'] [] (by simp) (by decide) (by simp)
    rw [if_pos rfl, List.append_nil] at h3
    rw [h3, show charsToNat ['1'] = 1 from by decide,
      show charsToNat ([] : List Char) = 0 from rfl]
    norm_num
  refine ⟨?_, ?_, ?_⟩
  · rw [h1, h2]
  · rw [h1, h2]
    unfold parse_aum_meur
    dsimp only
    rw [if_neg (by decide)]
    rw [show clean_spaces (String.data "-1") = '-' :: ['1'] from by decide]
    rw [show searchAumGroup ('-' :: ['1']) = some (['1'], []) from by decide]
    dsimp only
    rw [show List.filter (fun c => decide (c ≠ ' ')) ['1'] = ['1'] from by decide]
    rw [show List.map (fun c => if c = ',' then '.' else c) ['1'] = ['1'] from by decide]
    rw [hpf]
    dsimp only
    rw [if_neg (by decide), if_neg (by decide)]
  · rw [show ((1 : ℚ) : ℝ) - (-1 : ℝ) = 2 from by norm_num]
    rw [show |(2 : ℝ)| = 2 from by rw [abs_of_pos]; norm_num]
    norm_num

/-- C7 (amended): formatting a value with `fmt_number` at `n ≥ 1` decimals and
parsing the text back recovers the half-even rounding of the value to `n`
decimals — within half a unit in the last place of the original — through
`parse_percent` always, and through `parse_aum_meur` whenever the value is
nonnegative (a negative sign is dropped by the AUM regex). -/
theorem claim_C7_roundtrip (x : ℝ) (n : ℕ) (hn : 1 ≤ n) :
    parse_percent (some (fmt_number x n)) =
        some ((roundHalfEvenR (x * 10 ^ n) : ℚ) / 10 ^ n) ∧
      (0 ≤ x → parse_aum_meur (some (fmt_number x n)) =
        some ((roundHalfEvenR (x * 10 ^ n) : ℚ) / 10 ^ n)) ∧
      |((((roundHalfEvenR (x * 10 ^ n) : ℚ) / 10 ^ n : ℚ)) : ℝ) - x| ≤ 1 / (2 * 10 ^ n) := by
  refine ⟨parse_percent_decimalChars _ n hn, ?_, ?_⟩
  · intro hx
    exact parse_aum_decimalChars _ n hn
      (rheR_nonneg _ (mul_nonneg hx (by positivity)))
  · have h := rheR_abs_le (x * 10 ^ n)
    have h10 : (0:ℝ) < 10 ^ n := by positivity
    have hcast : ((((roundHalfEvenR (x * 10 ^ n) : ℚ) / 10 ^ n : ℚ)) : ℝ) =
        ((roundHalfEvenR (x * 10 ^ n) : ℝ)) / 10 ^ n := by push_cast; ring
    rw [hcast]
    rw [show ((roundHalfEvenR (x * 10 ^ n) : ℝ)) / 10 ^ n - x =
      ((roundHalfEvenR (x * 10 ^ n) : ℝ) - x * 10 ^ n) / 10 ^ n from by field_simp; ring]
    rw [abs_div, abs_of_pos h10, div_le_iff₀ h10]
    refine le_trans h ?_
    rw [show (1 : ℝ) / (2 * 10 ^ n) * 10 ^ n = 1 / 2 from by field_simp; ring]

theorem claim_C7_roundtrip_witness :
    (parse_percent (some (fmt_number (0 : ℝ) 1)) =
        some ((roundHalfEvenR ((0 : ℝ) * 10 ^ 1) : ℚ) / 10 ^ 1) ∧
      ((0 : ℝ) ≤ 0 → parse_aum_meur (some (fmt_number (0 : ℝ) 1)) =
        some ((roundHalfEvenR ((0 : ℝ) * 10 ^ 1) : ℚ) / 10 ^ 1)) ∧
      |((((roundHalfEvenR ((0 : ℝ) * 10 ^ 1) : ℚ) / 10 ^ 1 : ℚ)) : ℝ) - 0| ≤
        1 / (2 * 10 ^ 1)) :=
  claim_C7_roundtrip 0 1 (le_refl 1)

end JustETF
